import Mathlib

/-!
# geolib2 `HeightMap`: quadtree construction over a height grid

A shallow embedding of `src/src/HeightMap.cpp` (namespace `geo`).

Modelling conventions.

* `double` samples, the resolution and all coordinates live in an arbitrary
  linearly ordered commutative ring `α` (for instance `ℤ`, `ℚ` or `ℝ`); only
  `0`, `*`, `<`, `=` and `std::max` are used by the code.  Concrete evaluations
  are done at `α = ℤ`.
* `unsigned int` indices and sizes are natural numbers.  `fromGrid` and
  `createQuadTree` are modelled in exact arithmetic: grids are taken to be small
  enough for the padded grid of `pow_size * pow_size` samples to exist.  The
  32-bit arithmetic of lines 33-41 (the conversion of `size()` to `unsigned int`
  and the doubling `pow_size *= 2`, both modulo `2 ^ 32`) is modelled separately
  by `powSizeLoop32` and `gridDims32`: it agrees with the exact arithmetic when
  `max(M, N) ≤ 2 ^ 31`, and the loop never ends when `2 ^ 31 < size`.
  `a - b` is truncated subtraction, which agrees with the machine subtraction
  on every path where the code uses its value (a range with a non-zero maximum
  is non-empty).
* `std::vector` is `List`; an out-of-range `operator[]` is the fault
  `Fault.outOfBounds`; `assert` is enabled, and a failed one is `Fault.assertion`.
* `HeightMapNode*` is the inductive type `HeightMapNodePtr`: either `null` or a
  node with its box, its `occupied_` flag and its four child pointers.
* Recursion and the `while` loop are driven by a fuel argument; the entry points
  pass an amount that is shown to be sufficient.  The 32-bit loop `powSizeLoop32`
  can run for ever, so there the fuel stays an argument.
-/

set_option linter.unusedSectionVars false
set_option linter.unnecessarySeqFocus false

namespace geo

/-! ## Faults and vector access -/

/-- Ways in which the C++ code can fail to return a value. -/
inductive Fault
  | assertion
  | outOfBounds
  | fuel
  deriving DecidableEq

instance instDecidableEqExcept {ε β : Type} [DecidableEq ε] [DecidableEq β] :
    DecidableEq (Except ε β) := fun a b =>
  match a, b with
  | .ok x, .ok y =>
    if h : x = y then isTrue (congrArg Except.ok h)
    else isFalse (fun h2 => h (Except.ok.inj h2))
  | .error x, .error y =>
    if h : x = y then isTrue (congrArg Except.error h)
    else isFalse (fun h2 => h (Except.error.inj h2))
  | .ok _, .error _ => isFalse (fun h2 => Except.noConfusion h2)
  | .error _, .ok _ => isFalse (fun h2 => Except.noConfusion h2)

/-- Read access `v[i]` on a `std::vector`. -/
def getAt {β : Type} (v : List β) (i : Nat) : Except Fault β :=
  match v[i]? with
  | some x => .ok x
  | none => .error .outOfBounds

/-- Read access `m[i][j]` on a vector of vectors. -/
def getAt2 {β : Type} (m : List (List β)) (i j : Nat) : Except Fault β := do
  let row ← getAt m i
  getAt row j

/-- Write access `v[i] = x` on a `std::vector`. -/
def setAt {β : Type} (v : List β) (i : Nat) (x : β) : Except Fault (List β) :=
  if i < v.length then .ok (v.set i x) else .error .outOfBounds

/-- The call `v.resize(n, x)` of `std::vector`. -/
def resize {β : Type} (v : List β) (n : Nat) (x : β) : List β :=
  v.take n ++ List.replicate (n - v.length) x

/-! ## Data model -/

/-- A `Vector3` / `tf::Vector3`: three coordinates. -/
structure Vector3 (α : Type) where
  x : α
  y : α
  z : α
  deriving DecidableEq

/-- Modelled from the spec: the class `Box` is declared outside `src/`; it is
"constructed from two 3D corner points", kept here as `bounds[0]` and `bounds[1]`. -/
structure Box (α : Type) where
  bmin : Vector3 α
  bmax : Vector3 α
  deriving DecidableEq

/-- Modelled from the spec: the class `Triangle` is declared outside `src/`; it is
"three 3D points, no shared/indexed vertices". -/
structure Triangle (α : Type) where
  p1 : Vector3 α
  p2 : Vector3 α
  p3 : Vector3 α
  deriving DecidableEq

/-- Modelled from the spec: the class `HeightMapNode` is declared outside `src/`.
A value of this type is a `HeightMapNode*`: `null`, or a node holding `box_`,
`occupied_` and the four slots `children_[0..3]`.  The constructor
`HeightMapNode(const Box&)` leaves the four slots null. -/
inductive HeightMapNodePtr (α : Type) where
  | null : HeightMapNodePtr α
  | node (box_ : Box α) (occupied_ : Bool)
      (c0 c1 c2 c3 : HeightMapNodePtr α) : HeightMapNodePtr α
  deriving DecidableEq

/-- The class `HeightMap`: the root pointer and the mesh. -/
structure HeightMap (α : Type) where
  root_ : HeightMapNodePtr α
  mesh_ : List (Triangle α)
  deriving DecidableEq

/-- A half-open index range `[mx_min, mx_max) x [my_min, my_max)`, in the
argument order of `createQuadTree`. -/
structure Range where
  mx_min : Nat
  my_min : Nat
  mx_max : Nat
  my_max : Nat
  deriving DecidableEq

/-! ## Copying -/

/-- Modelled from the spec: the copy constructor `HeightMapNode(const HeightMapNode&)`
is defined outside `src/`; `clone()` "performs a structural deep copy: a new node
tree identical in shape and field values to the source".  The box and the
`occupied_` flag are copied, and every non-null child is copied in turn. -/
def HeightMapNodePtr.copyNode {α : Type} : HeightMapNodePtr α → HeightMapNodePtr α
  | .null => .null
  | .node box_ occupied_ c0 c1 c2 c3 =>
    .node box_ occupied_ c0.copyNode c1.copyNode c2.copyNode c3.copyNode

/-- The copy constructor `HeightMap::HeightMap(const HeightMap& orig)`. -/
def HeightMap.copy {α : Type} (orig : HeightMap α) : HeightMap α :=
  let root_ : HeightMapNodePtr α :=
    match orig.root_ with
    | .null => .null
    | .node b o c0 c1 c2 c3 => (HeightMapNodePtr.node b o c0 c1 c2 c3).copyNode
  ⟨root_, orig.mesh_⟩

/-- The function `HeightMap::clone`. -/
def HeightMap.clone {α : Type} (self : HeightMap α) : HeightMap α :=
  HeightMap.copy self

section Code

variable {α : Type} [LinearOrderedCommRing α]

/-- The function `std::max(a, b)`, which is `(a < b) ? b : a`. -/
def stdMax (a b : α) : α := if a < b then b else a

/-! ## `HeightMap::createQuadTree` -/

/-- Lines 99-104 of `createQuadTree`: the scan computing `max_height`. -/
def scanMax (map : List (List α)) (mx_min my_min mx_max my_max : Nat) :
    Except Fault α :=
  (List.range' mx_min (mx_max - mx_min)).foldlM (fun max_height mx =>
    (List.range' my_min (my_max - my_min)).foldlM (fun max_height my => do
      let v ← getAt2 map mx my
      pure (stdMax max_height v)) max_height) 0

/-- The body of `HeightMap::createQuadTree`, with a fuel argument bounding the
recursion depth. -/
def createQuadTreeAux : Nat → List (List α) → Nat → Nat → Nat → Nat → α →
    Except Fault (HeightMapNodePtr α)
  | 0, _, _, _, _, _, _ => .error .fuel
  | fuel + 1, map, mx_min, my_min, mx_max, my_max, resolution => do
    let max_height ← scanMax map mx_min my_min mx_max my_max
    if max_height = 0 then
      pure .null
    else
      let min_map : Vector3 α :=
        ⟨(mx_min : α) * resolution, (my_min : α) * resolution, 0⟩
      let max_map : Vector3 α :=
        ⟨(mx_max : α) * resolution, (my_max : α) * resolution, max_height⟩
      if mx_max - mx_min = 1 ∨ my_max - my_min = 1 then
        if mx_max - mx_min = 1 ∧ my_max - my_min = 1 then
          pure (.node ⟨min_map, max_map⟩ true .null .null .null .null)
        else
          .error .assertion
      else
        let cx := (mx_max + mx_min) / 2
        let cy := (my_max + my_min) / 2
        let c0 ← createQuadTreeAux fuel map mx_min my_min cx cy resolution
        let c1 ← createQuadTreeAux fuel map cx my_min mx_max cy resolution
        let c2 ← createQuadTreeAux fuel map mx_min cy cx my_max resolution
        let c3 ← createQuadTreeAux fuel map cx cy mx_max my_max resolution
        pure (.node ⟨min_map, max_map⟩ false c0 c1 c2 c3)

/-- The function `HeightMap::createQuadTree`.  Every recursive call is made on a
strictly narrower x-range, so `mx_max - mx_min + 1` levels suffice. -/
def createQuadTree (map : List (List α)) (mx_min my_min mx_max my_max : Nat)
    (resolution : α) : Except Fault (HeightMapNodePtr α) :=
  createQuadTreeAux (mx_max - mx_min + 1) map mx_min my_min mx_max my_max resolution

/-- The argument ranges of the four recursive calls of `createQuadTree`
(lines 124-130), in the order of the slots `children_[0..3]`. -/
def quadrants (g : Range) : List Range :=
  let cx := (g.mx_max + g.mx_min) / 2
  let cy := (g.my_max + g.my_min) / 2
  [⟨g.mx_min, g.my_min, cx, cy⟩, ⟨cx, g.my_min, g.mx_max, cy⟩,
   ⟨g.mx_min, cy, cx, g.my_max⟩, ⟨cx, cy, g.mx_max, g.my_max⟩]

/-- The calls of `createQuadTree` made below (and including) one call, each with
the value it returns, in the order in which they are entered.  The control flow
is that of `createQuadTreeAux`: a call recurses exactly when its scan succeeds
with a non-zero maximum and neither side of its range is 1.  (Should a child call
fault, the sibling calls after it are still listed.) -/
def callLog : Nat → List (List α) → Nat → Nat → Nat → Nat → α →
    List (Range × Except Fault (HeightMapNodePtr α))
  | 0, _, _, _, _, _, _ => []
  | fuel + 1, map, mx_min, my_min, mx_max, my_max, resolution =>
    (⟨mx_min, my_min, mx_max, my_max⟩,
      createQuadTreeAux (fuel + 1) map mx_min my_min mx_max my_max resolution) ::
    (match scanMax map mx_min my_min mx_max my_max with
     | .error _ => []
     | .ok max_height =>
       if max_height = 0 then []
       else if mx_max - mx_min = 1 ∨ my_max - my_min = 1 then []
       else
         let cx := (mx_max + mx_min) / 2
         let cy := (my_max + my_min) / 2
         callLog fuel map mx_min my_min cx cy resolution ++
         callLog fuel map cx my_min mx_max cy resolution ++
         callLog fuel map mx_min cy cx my_max resolution ++
         callLog fuel map cx cy mx_max my_max resolution)

/-- The calls made by `createQuadTree` on a range, with the fuel of `createQuadTree`. -/
def createQuadTreeCalls (map : List (List α)) (mx_min my_min mx_max my_max : Nat)
    (resolution : α) : List (Range × Except Fault (HeightMapNodePtr α)) :=
  callLog (mx_max - mx_min + 1) map mx_min my_min mx_max my_max resolution

/-! ## `HeightMap::fromGrid` -/

/-- Lines 38-41 of `fromGrid` in exact arithmetic: `pow_size` is doubled while it
is below `size`.  The machine loop is `powSizeLoop32`; the two agree when
`size ≤ 2 ^ 31` (`powSizeLoop32_eq`). -/
def powSizeLoop : Nat → Nat → Nat → Except Fault Nat
  | 0, _, _ => .error .fuel
  | fuel + 1, size, pow_size =>
    if pow_size < size then powSizeLoop fuel size (pow_size * 2) else .ok pow_size

/-- Lines 38-41 of `fromGrid`, started at `pow_size = 1`.  The loop doubles a
positive number, so it runs fewer than `size + 1` times. -/
def powSize (size : Nat) : Except Fault Nat := powSizeLoop (size + 1) size 1

/-- Lines 38-41 of `fromGrid` in the 32-bit arithmetic of `unsigned int`:
`pow_size *= 2` is taken modulo `2 ^ 32`.  This loop need not end, so the fuel is
an argument of the model. -/
def powSizeLoop32 : Nat → Nat → Nat → Except Fault Nat
  | 0, _, _ => .error .fuel
  | fuel + 1, size, pow_size =>
    if pow_size < size then powSizeLoop32 fuel size (pow_size * 2 % 2 ^ 32)
    else .ok pow_size

/-- Lines 46-49 of `fromGrid`: the body of the first padding loop for row `mx`. -/
def padRow (grid : List (List α)) (my_max pow_size : Nat)
    (pow_grid : List (List α)) (mx : Nat) : Except Fault (List (List α)) := do
  let row ← getAt pow_grid mx
  let row := resize row pow_size 0
  let row ← (List.range' 0 my_max).foldlM (fun row my => do
    let v ← getAt2 grid mx my
    setAt row my v) row
  setAt pow_grid mx row

/-- Lines 43-54 of `fromGrid`: the construction of `pow_grid`. -/
def padGrid (grid : List (List α)) (mx_max my_max pow_size : Nat) :
    Except Fault (List (List α)) := do
  let pow_grid : List (List α) := List.replicate pow_size []
  let pow_grid ← (List.range' 0 mx_max).foldlM (padRow grid my_max pow_size) pow_grid
  (List.range' mx_max (pow_size - mx_max)).foldlM (fun pow_grid mx => do
    let row ← getAt pow_grid mx
    setAt pow_grid mx (resize row pow_size 0)) pow_grid

/-- Lines 62-86 of `fromGrid`: the triangles pushed for the cell `(mx, my)`. -/
def meshCell (grid : List (List α)) (resolution : α) (mx : Nat)
    (mesh : List (Triangle α)) (my : Nat) : Except Fault (List (Triangle α)) := do
  let h ← getAt2 grid mx my
  let x1 := resolution * (mx : α)
  let x2 := resolution * ((mx + 1 : Nat) : α)
  let y1 := resolution * (my : α)
  let y2 := resolution * ((my + 1 : Nat) : α)
  let mesh :=
    if 0 < h then
      mesh ++ [⟨⟨x1, y1, h⟩, ⟨x2, y1, h⟩, ⟨x1, y2, h⟩⟩,
               ⟨⟨x2, y1, h⟩, ⟨x2, y2, h⟩, ⟨x1, y2, h⟩⟩]
    else mesh
  let mesh ←
    if 0 < mx then do
      let h2 ← getAt2 grid (mx - 1) my
      if h2 ≠ h then
        pure (mesh ++ [⟨⟨x1, y1, h2⟩, ⟨x1, y2, h⟩, ⟨x1, y1, h⟩⟩,
                       ⟨⟨x1, y1, h2⟩, ⟨x1, y2, h⟩, ⟨x1, y2, h2⟩⟩])
      else pure mesh
    else pure mesh
  if 0 < my then do
    let h2 ← getAt2 grid mx (my - 1)
    if h2 ≠ h then
      pure (mesh ++ [⟨⟨x1, y1, h2⟩, ⟨x2, y1, h⟩, ⟨x1, y1, h⟩⟩,
                     ⟨⟨x1, y1, h2⟩, ⟨x2, y1, h⟩, ⟨x2, y1, h2⟩⟩])
    else pure mesh
  else pure mesh

/-- Lines 60-88 of `fromGrid`: the mesh loops. -/
def buildMesh (grid : List (List α)) (mx_max my_max : Nat) (resolution : α) :
    Except Fault (List (Triangle α)) :=
  (List.range' 0 mx_max).foldlM (fun mesh mx =>
    (List.range' 0 my_max).foldlM (meshCell grid resolution mx) mesh) []

/-- Lines 33-41 of `fromGrid` in exact arithmetic: `mx_max`, `my_max` and
`pow_size`. -/
def gridDims (grid : List (List α)) : Except Fault (Nat × Nat × Nat) := do
  let mx_max := grid.length
  let row0 ← getAt grid 0
  let my_max := row0.length
  let size := max mx_max my_max
  let pow_size ← powSize size
  pure (mx_max, my_max, pow_size)

/-- Lines 33-41 of `fromGrid` in the 32-bit arithmetic of `unsigned int`: the
conversions of `grid.size()` and `grid[0].size()` and the doubling of `pow_size`
are taken modulo `2 ^ 32`. -/
def gridDims32 (fuel : Nat) (grid : List (List α)) : Except Fault (Nat × Nat × Nat) := do
  let mx_max := grid.length % 2 ^ 32
  let row0 ← getAt grid 0
  let my_max := row0.length % 2 ^ 32
  let size := max mx_max my_max
  let pow_size ← powSizeLoop32 fuel size 1
  pure (mx_max, my_max, pow_size)

/-- The function `HeightMap::fromGrid`. -/
def fromGrid (grid : List (List α)) (resolution : α) : Except Fault (HeightMap α) := do
  let (mx_max, my_max, pow_size) ← gridDims grid
  let pow_grid ← padGrid grid mx_max my_max pow_size
  let root ← createQuadTree pow_grid 0 0 pow_size pow_size resolution
  let mesh ← buildMesh grid mx_max my_max resolution
  pure ⟨root, mesh⟩

/-- All the nodes of a tree (as non-null pointers), parents before children. -/
def nodes : HeightMapNodePtr α → List (HeightMapNodePtr α)
  | .null => []
  | .node b o c0 c1 c2 c3 =>
    .node b o c0 c1 c2 c3 :: (nodes c0 ++ nodes c1 ++ nodes c2 ++ nodes c3)

/-! ## Specification vocabulary -/

/-- The sample `map[mx][my]`, with `0` standing in outside the vectors. -/
def sample (map : List (List α)) (mx my : Nat) : α := (map.getD mx []).getD my 0

/-- The indices `mx`, `my` address a sample of `map`: `map[mx][my]` is a valid read. -/
def InBounds {β : Type} (map : List (List β)) (mx my : Nat) : Prop :=
  mx < map.length ∧ my < (map.getD mx []).length

/-- The cell `(x, y)` lies in the range `g`. -/
def Range.contains (g : Range) (x y : Nat) : Bool :=
  decide (g.mx_min ≤ x ∧ x < g.mx_max ∧ g.my_min ≤ y ∧ y < g.my_max)

/-- The value of `max_height` after scanning the columns `ys` of row `mx`. -/
def rowMax (map : List (List α)) (mx : Nat) (ys : List Nat) (acc : α) : α :=
  ys.foldl (fun m my => stdMax m (sample map mx my)) acc

/-- The value of `max_height` after scanning the rows `xs`, columns `ys`. -/
def areaMax (map : List (List α)) (xs ys : List Nat) (acc : α) : α :=
  xs.foldl (fun m mx => rowMax map mx ys m) acc

/-- The value of `max_height` after the scan of a range, started at `0`. -/
def rangeMax (map : List (List α)) (mx_min my_min mx_max my_max : Nat) : α :=
  areaMax map (List.range' mx_min (mx_max - mx_min))
    (List.range' my_min (my_max - my_min)) 0

/-- The range holds a sample that is strictly positive, that is, the maximum
height over the cells of the range is strictly greater than `0`. -/
def HasPositive (map : List (List α)) (g : Range) : Prop :=
  ∃ mx my, g.contains mx my = true ∧ InBounds map mx my ∧ 0 < sample map mx my

/-- The height `m` is the maximum sample over the range `g`: it is the sample of
a cell of `g`, and no sample of `g` exceeds it. -/
def IsMaxOver (map : List (List α)) (g : Range) (m : α) : Prop :=
  (∃ mx my, g.contains mx my = true ∧ getAt2 map mx my = Except.ok m) ∧
  ∀ mx my, g.contains mx my = true → ∃ v, getAt2 map mx my = Except.ok v ∧ v ≤ m

/-- The box built at lines 110-115 of `createQuadTree` for a range and a height. -/
def rangeBox (a b c d : Nat) (r m : α) : Box α :=
  ⟨⟨(a : α) * r, (b : α) * r, 0⟩, ⟨(c : α) * r, (d : α) * r, m⟩⟩

/-- The z-max of the box of a node, as a list: empty for a null pointer. -/
def zTop : HeightMapNodePtr α → List α
  | .null => []
  | .node b _ _ _ _ _ => [b.bmax.z]

end Code

section Proofs

variable {α : Type} [LinearOrderedCommRing α]

/-! ## Basic facts -/

theorem ok_bind {β γ : Type} (x : β) (f : β → Except Fault γ) :
    (Except.ok x >>= f) = f x := rfl

theorem error_bind {β γ : Type} (e : Fault) (f : β → Except Fault γ) :
    ((Except.error e : Except Fault β) >>= f) = Except.error e := rfl

theorem stdMax_eq_max (a b : α) : stdMax a b = max a b := by
  unfold stdMax
  split_ifs with h
  · exact (max_eq_right h.le).symm
  · exact (max_eq_left (not_lt.mp h)).symm

theorem getAt_ok {β : Type} (v : List β) (i : Nat) (h : i < v.length) :
    getAt v i = .ok (v.get ⟨i, h⟩) := by
  unfold getAt
  rw [List.getElem?_eq_getElem h]
  rfl

theorem getAt_error {β : Type} (v : List β) (i : Nat) (h : ¬ i < v.length) :
    getAt v i = .error .outOfBounds := by
  unfold getAt
  rw [List.getElem?_eq_none (by omega)]

theorem getAt2_eq (map : List (List α)) (mx my : Nat) (h : InBounds map mx my) :
    getAt2 map mx my = Except.ok (sample map mx my) := by
  obtain ⟨hx, hy⟩ := h
  have h1 : map.getD mx [] = map.get ⟨mx, hx⟩ := by
    simp [List.getD_eq_getElem?_getD, List.getElem?_eq_getElem hx]
  unfold getAt2
  rw [getAt_ok map mx hx, ok_bind, ← h1, getAt_ok _ my hy]
  simp only [sample]
  rw [List.getD_eq_getElem _ _ hy]
  rfl

theorem getAt2_error (map : List (List α)) (mx my : Nat) (h : ¬ InBounds map mx my) :
    getAt2 map mx my = Except.error Fault.outOfBounds := by
  unfold getAt2
  by_cases hx : mx < map.length
  · have h1 : map.getD mx [] = map.get ⟨mx, hx⟩ := by
      simp [List.getD_eq_getElem?_getD, List.getElem?_eq_getElem hx]
    rw [getAt_ok map mx hx, ok_bind, ← h1]
    exact getAt_error _ _ (fun hy => h ⟨hx, hy⟩)
  · rw [getAt_error map mx hx]
    rfl

theorem getAt2_ok_iff (map : List (List α)) (mx my : Nat) (v : α) :
    getAt2 map mx my = Except.ok v ↔ InBounds map mx my ∧ v = sample map mx my := by
  by_cases h : InBounds map mx my
  · rw [getAt2_eq map mx my h]
    constructor
    · intro e
      exact ⟨h, (Except.ok.inj e).symm⟩
    · rintro ⟨_, e⟩
      rw [e]
  · rw [getAt2_error map mx my h]
    constructor
    · intro e
      cases e
    · rintro ⟨h2, _⟩
      exact absurd h2 h

theorem Range.contains_iff (g : Range) (x y : Nat) :
    g.contains x y = true ↔ g.mx_min ≤ x ∧ x < g.mx_max ∧ g.my_min ≤ y ∧ y < g.my_max := by
  simp [Range.contains]

/-! ## The scan of `createQuadTree` -/

theorem rowScan_eq (map : List (List α)) (mx : Nat)
    (ys : List Nat) (hys : ∀ my ∈ ys, InBounds map mx my) (acc : α) :
    ys.foldlM (fun max_height my => do
      let v ← getAt2 map mx my
      pure (stdMax max_height v)) acc = Except.ok (rowMax map mx ys acc) := by
  induction ys generalizing acc with
  | nil => rfl
  | cons y ys ih =>
    rw [List.foldlM_cons, getAt2_eq map mx y (hys y (List.mem_cons_self _ _)), ok_bind]
    show List.foldlM _ (stdMax acc (sample map mx y)) ys = _
    rw [ih (fun my hmy => hys my (List.mem_cons_of_mem _ hmy))]
    rfl

theorem rowScan_ok (map : List (List α)) (mx : Nat) (ys : List Nat) (acc m : α)
    (h : ys.foldlM (fun max_height my => do
      let v ← getAt2 map mx my
      pure (stdMax max_height v)) acc = Except.ok m) :
    ∀ my ∈ ys, InBounds map mx my := by
  induction ys generalizing acc with
  | nil => intro my hmy; cases hmy
  | cons y ys ih =>
    rw [List.foldlM_cons] at h
    by_cases hy : InBounds map mx y
    · rw [getAt2_eq map mx y hy, ok_bind] at h
      intro my hmy
      rcases List.mem_cons.mp hmy with e | e
      · rw [e]; exact hy
      · exact ih _ h my e
    · rw [getAt2_error map mx y hy] at h
      cases h

theorem areaScan_eq (map : List (List α)) (xs ys : List Nat)
    (hb : ∀ mx ∈ xs, ∀ my ∈ ys, InBounds map mx my) (acc : α) :
    xs.foldlM (fun max_height mx =>
      ys.foldlM (fun max_height my => do
        let v ← getAt2 map mx my
        pure (stdMax max_height v)) max_height) acc
      = Except.ok (areaMax map xs ys acc) := by
  induction xs generalizing acc with
  | nil => rfl
  | cons x xs ih =>
    rw [List.foldlM_cons, rowScan_eq map x ys (hb x (List.mem_cons_self _ _))]
    show List.foldlM _ (rowMax map x ys acc) xs = _
    rw [ih (fun mx hmx => hb mx (List.mem_cons_of_mem _ hmx))]
    rfl

theorem areaScan_ok (map : List (List α)) (xs ys : List Nat) (acc m : α)
    (h : xs.foldlM (fun max_height mx =>
      ys.foldlM (fun max_height my => do
        let v ← getAt2 map mx my
        pure (stdMax max_height v)) max_height) acc = Except.ok m) :
    ∀ mx ∈ xs, ∀ my ∈ ys, InBounds map mx my := by
  induction xs generalizing acc with
  | nil => intro mx hmx; cases hmx
  | cons x xs ih =>
    rw [List.foldlM_cons] at h
    cases hrow : ys.foldlM (fun max_height my => do
        let v ← getAt2 map x my
        pure (stdMax max_height v)) acc with
    | error e =>
      rw [hrow] at h
      cases h
    | ok m1 =>
      rw [hrow, ok_bind] at h
      intro mx hmx
      rcases List.mem_cons.mp hmx with e | e
      · rw [e]; exact rowScan_ok map x ys acc m1 hrow
      · exact ih _ h mx e

theorem scanMax_eq (map : List (List α)) (a b c d : Nat)
    (hb : ∀ mx my, a ≤ mx → mx < c → b ≤ my → my < d → InBounds map mx my) :
    scanMax map a b c d = Except.ok (rangeMax map a b c d) := by
  unfold scanMax rangeMax
  apply areaScan_eq
  intro mx hmx my hmy
  rw [List.mem_range'_1] at hmx hmy
  exact hb mx my hmx.1 (by omega) hmy.1 (by omega)

theorem scanMax_ok (map : List (List α)) (a b c d : Nat) (m : α)
    (h : scanMax map a b c d = Except.ok m) :
    (∀ mx my, a ≤ mx → mx < c → b ≤ my → my < d → InBounds map mx my) ∧
      m = rangeMax map a b c d := by
  have hb : ∀ mx my, a ≤ mx → mx < c → b ≤ my → my < d → InBounds map mx my := by
    intro mx my h1 h2 h3 h4
    refine areaScan_ok map _ _ 0 m h mx ?_ my ?_
    · rw [List.mem_range'_1]; omega
    · rw [List.mem_range'_1]; omega
  refine ⟨hb, ?_⟩
  rw [scanMax_eq map a b c d hb] at h
  exact (Except.ok.inj h).symm

theorem rowMax_ge_init (map : List (List α)) (mx : Nat) (ys : List Nat) (acc : α) :
    acc ≤ rowMax map mx ys acc := by
  induction ys generalizing acc with
  | nil => exact le_refl _
  | cons y ys ih =>
    show acc ≤ rowMax map mx ys (stdMax acc (sample map mx y))
    refine le_trans ?_ (ih _)
    rw [stdMax_eq_max]
    exact le_max_left _ _

theorem rowMax_ge_mem (map : List (List α)) (mx : Nat) (ys : List Nat) (acc : α)
    (my : Nat) (h : my ∈ ys) : sample map mx my ≤ rowMax map mx ys acc := by
  induction ys generalizing acc with
  | nil => cases h
  | cons y ys ih =>
    show _ ≤ rowMax map mx ys (stdMax acc (sample map mx y))
    rcases List.mem_cons.mp h with h1 | h1
    · subst h1
      refine le_trans ?_ (rowMax_ge_init map mx ys _)
      rw [stdMax_eq_max]
      exact le_max_right _ _
    · exact ih _ h1

theorem rowMax_attained (map : List (List α)) (mx : Nat) (ys : List Nat) (acc : α) :
    rowMax map mx ys acc = acc ∨ ∃ my ∈ ys, rowMax map mx ys acc = sample map mx my := by
  induction ys generalizing acc with
  | nil => exact Or.inl rfl
  | cons y ys ih =>
    show rowMax map mx ys (stdMax acc (sample map mx y)) = acc ∨
      ∃ my ∈ y :: ys, rowMax map mx ys (stdMax acc (sample map mx y)) = sample map mx my
    rcases ih (stdMax acc (sample map mx y)) with h | ⟨my, hmy, h⟩
    · rw [h]
      unfold stdMax
      split_ifs
      · exact Or.inr ⟨y, List.mem_cons_self _ _, rfl⟩
      · exact Or.inl rfl
    · exact Or.inr ⟨my, List.mem_cons_of_mem _ hmy, h⟩

theorem areaMax_ge_init (map : List (List α)) (xs ys : List Nat) (acc : α) :
    acc ≤ areaMax map xs ys acc := by
  induction xs generalizing acc with
  | nil => exact le_refl _
  | cons x xs ih =>
    show acc ≤ areaMax map xs ys (rowMax map x ys acc)
    exact le_trans (rowMax_ge_init map x ys acc) (ih _)

theorem areaMax_ge_mem (map : List (List α)) (xs ys : List Nat) (acc : α)
    (mx my : Nat) (hx : mx ∈ xs) (hy : my ∈ ys) :
    sample map mx my ≤ areaMax map xs ys acc := by
  induction xs generalizing acc with
  | nil => cases hx
  | cons x xs ih =>
    show _ ≤ areaMax map xs ys (rowMax map x ys acc)
    rcases List.mem_cons.mp hx with h1 | h1
    · subst h1
      exact le_trans (rowMax_ge_mem map mx ys acc my hy) (areaMax_ge_init map xs ys _)
    · exact ih _ h1

theorem areaMax_attained (map : List (List α)) (xs ys : List Nat) (acc : α) :
    areaMax map xs ys acc = acc ∨
      ∃ mx ∈ xs, ∃ my ∈ ys, areaMax map xs ys acc = sample map mx my := by
  induction xs generalizing acc with
  | nil => exact Or.inl rfl
  | cons x xs ih =>
    show areaMax map xs ys (rowMax map x ys acc) = acc ∨
      ∃ mx ∈ x :: xs, ∃ my ∈ ys, areaMax map xs ys (rowMax map x ys acc) = sample map mx my
    rcases ih (rowMax map x ys acc) with h | ⟨mx, hmx, my, hmy, h⟩
    · rw [h]
      rcases rowMax_attained map x ys acc with h2 | ⟨my, hmy, h2⟩
      · exact Or.inl h2
      · exact Or.inr ⟨x, List.mem_cons_self _ _, my, hmy, h2⟩
    · exact Or.inr ⟨mx, List.mem_cons_of_mem _ hmx, my, hmy, h⟩

theorem rangeMax_nonneg (map : List (List α)) (a b c d : Nat) :
    0 ≤ rangeMax map a b c d := areaMax_ge_init _ _ _ _

theorem rangeMax_ge (map : List (List α)) (a b c d mx my : Nat)
    (hx1 : a ≤ mx) (hx2 : mx < c) (hy1 : b ≤ my) (hy2 : my < d) :
    sample map mx my ≤ rangeMax map a b c d := by
  apply areaMax_ge_mem
  · rw [List.mem_range'_1]; omega
  · rw [List.mem_range'_1]; omega

theorem rangeMax_attained (map : List (List α)) (a b c d : Nat) :
    rangeMax map a b c d = 0 ∨ ∃ mx my, a ≤ mx ∧ mx < c ∧ b ≤ my ∧ my < d ∧
      rangeMax map a b c d = sample map mx my := by
  rcases areaMax_attained map (List.range' a (c - a)) (List.range' b (d - b)) 0 with
    h | ⟨mx, hmx, my, hmy, h⟩
  · exact Or.inl h
  · rw [List.mem_range'_1] at hmx hmy
    exact Or.inr ⟨mx, my, hmx.1, by omega, hmy.1, by omega, h⟩

theorem rangeMax_ne_zero_iff (map : List (List α)) (a b c d : Nat) :
    rangeMax map a b c d ≠ 0 ↔
      ∃ mx my, a ≤ mx ∧ mx < c ∧ b ≤ my ∧ my < d ∧ 0 < sample map mx my := by
  constructor
  · intro h
    rcases rangeMax_attained map a b c d with h0 | ⟨mx, my, h1, h2, h3, h4, h5⟩
    · exact absurd h0 h
    · refine ⟨mx, my, h1, h2, h3, h4, ?_⟩
      rw [← h5]
      exact lt_of_le_of_ne (rangeMax_nonneg map a b c d) (Ne.symm h)
  · rintro ⟨mx, my, h1, h2, h3, h4, h5⟩ h0
    have := rangeMax_ge map a b c d mx my h1 h2 h3 h4
    rw [h0] at this
    exact absurd h5 (not_lt.mpr this)

theorem rangeMax_unit (map : List (List α)) (a b : Nat) :
    rangeMax map a b (a + 1) (b + 1) = stdMax 0 (sample map a b) := by
  have h1 : a + 1 - a = 1 := by omega
  have h2 : b + 1 - b = 1 := by omega
  unfold rangeMax
  rw [h1, h2]
  rfl

/-! ## Fuel of `createQuadTree` -/

theorem scanMax_nonempty (map : List (List α)) (a b c d : Nat) (m : α)
    (h : scanMax map a b c d = Except.ok m) (hm : m ≠ 0) : a < c ∧ b < d := by
  obtain ⟨_, e⟩ := scanMax_ok map a b c d m h
  rw [e] at hm
  obtain ⟨mx, my, h1, h2, h3, h4, _⟩ := (rangeMax_ne_zero_iff map a b c d).mp hm
  omega

theorem bind_stable {β γ : Type} (x x2 : Except Fault β) (g g2 : β → Except Fault γ)
    (hx : x ≠ Except.error Fault.fuel → x2 = x)
    (hg : ∀ v, g v ≠ Except.error Fault.fuel → g2 v = g v)
    (h : (x >>= g) ≠ Except.error Fault.fuel) : (x2 >>= g2) = (x >>= g) := by
  cases x with
  | error e =>
    have he : (Except.error e : Except Fault β) ≠ Except.error Fault.fuel := by
      intro e2
      rw [e2] at h
      exact h rfl
    rw [hx he]
    rfl
  | ok v =>
    rw [hx (fun e => by cases e), ok_bind, ok_bind]
    exact hg v h

/-- One more unit of fuel does not change a result that is not a fuel fault. -/
theorem createQuadTreeAux_succ (map : List (List α)) (r : α) :
    ∀ (fuel a b c d : Nat),
      createQuadTreeAux fuel map a b c d r ≠ Except.error Fault.fuel →
      createQuadTreeAux (fuel + 1) map a b c d r = createQuadTreeAux fuel map a b c d r := by
  intro fuel
  induction fuel with
  | zero =>
    intro a b c d h
    exact absurd rfl h
  | succ f ih =>
    intro a b c d h
    rw [createQuadTreeAux] at h
    conv_lhs => rw [createQuadTreeAux]
    conv_rhs => rw [createQuadTreeAux]
    cases hs : scanMax map a b c d with
    | error e => rfl
    | ok m =>
      rw [hs, ok_bind] at h
      rw [ok_bind, ok_bind]
      by_cases h0 : m = 0
      · simp only [h0, if_true]
      · simp only [h0, if_false] at h ⊢
        by_cases h1 : c - a = 1 ∨ d - b = 1
        · simp only [h1, if_true]
        · simp only [h1, if_false] at h ⊢
          refine bind_stable _ _ _ _ (ih _ _ _ _) (fun c0 h => ?_) h
          refine bind_stable _ _ _ _ (ih _ _ _ _) (fun c1 h => ?_) h
          refine bind_stable _ _ _ _ (ih _ _ _ _) (fun c2 h => ?_) h
          exact bind_stable _ _ _ _ (ih _ _ _ _) (fun c3 _ => rfl) h

theorem createQuadTreeAux_mono (map : List (List α)) (r : α) (fuel fuel2 a b c d : Nat)
    (hle : fuel ≤ fuel2)
    (h : createQuadTreeAux fuel map a b c d r ≠ Except.error Fault.fuel) :
    createQuadTreeAux fuel2 map a b c d r = createQuadTreeAux fuel map a b c d r := by
  induction fuel2 with
  | zero =>
    have : fuel = 0 := by omega
    rw [this]
  | succ f2 ih =>
    by_cases e : fuel = f2 + 1
    · rw [e]
    · have h2 := ih (by omega)
      rw [createQuadTreeAux_succ map r f2 a b c d (by rw [h2]; exact h), h2]

theorem bind_ne_fuel {β γ : Type} (x : Except Fault β) (g : β → Except Fault γ)
    (hx : x ≠ Except.error Fault.fuel) (hg : ∀ v, g v ≠ Except.error Fault.fuel) :
    (x >>= g) ≠ Except.error Fault.fuel := by
  cases x with
  | error e =>
    intro hh
    have he : e = Fault.fuel := Except.error.inj hh
    exact hx (by rw [he])
  | ok v => exact hg v

theorem foldlM_ne_fuel {ι β : Type} (f : β → ι → Except Fault β)
    (hf : ∀ acc i, f acc i ≠ Except.error Fault.fuel) (L : List ι) (acc : β) :
    L.foldlM f acc ≠ Except.error Fault.fuel := by
  induction L generalizing acc with
  | nil => intro hh; cases hh
  | cons i L ih =>
    rw [List.foldlM_cons]
    exact bind_ne_fuel _ _ (hf acc i) (fun v => ih v)

theorem scanMax_ne_fuel (map : List (List α)) (a b c d : Nat) :
    scanMax map a b c d ≠ Except.error Fault.fuel := by
  unfold scanMax
  apply foldlM_ne_fuel
  intro acc mx
  apply foldlM_ne_fuel
  intro acc2 my
  by_cases hy : InBounds map mx my
  · rw [getAt2_eq map mx my hy]
    intro hh
    cases hh
  · rw [getAt2_error map mx my hy]
    intro hh
    cases hh

/-- A fuel above the width of the x-range is never exhausted. -/
theorem createQuadTreeAux_ne_fuel (map : List (List α)) (r : α) :
    ∀ (fuel a b c d : Nat), c - a < fuel →
      createQuadTreeAux fuel map a b c d r ≠ Except.error Fault.fuel := by
  intro fuel
  induction fuel with
  | zero => intro a b c d h; omega
  | succ f ih =>
    intro a b c d hf
    rw [createQuadTreeAux]
    cases hs : scanMax map a b c d with
    | error e =>
      have hne : e ≠ Fault.fuel := by
        intro he
        rw [he] at hs
        exact scanMax_ne_fuel map a b c d hs
      intro hh
      exact hne (Except.error.inj hh)
    | ok m =>
      rw [ok_bind]
      by_cases h0 : m = 0
      · simp only [h0, if_true]
        intro hh
        cases hh
      · simp only [h0, if_false]
        by_cases h1 : c - a = 1 ∨ d - b = 1
        · simp only [h1, if_true]
          split_ifs <;> intro hh <;> cases hh
        · simp only [h1, if_false]
          have hne := scanMax_nonempty map a b c d m hs h0
          refine bind_ne_fuel _ _ (ih _ _ _ _ (by omega)) (fun c0 => ?_)
          refine bind_ne_fuel _ _ (ih _ _ _ _ (by omega)) (fun c1 => ?_)
          refine bind_ne_fuel _ _ (ih _ _ _ _ (by omega)) (fun c2 => ?_)
          refine bind_ne_fuel _ _ (ih _ _ _ _ (by omega)) (fun c3 => ?_)
          intro hh
          cases hh

/-- Any fuel above the width of the x-range gives the result of `createQuadTree`. -/
theorem createQuadTreeAux_eq (map : List (List α)) (r : α) (fuel a b c d : Nat)
    (hf : c - a < fuel) :
    createQuadTreeAux fuel map a b c d r = createQuadTree map a b c d r := by
  unfold createQuadTree
  exact createQuadTreeAux_mono map r (c - a + 1) fuel a b c d (by omega)
    (createQuadTreeAux_ne_fuel map r _ a b c d (by omega))

/-- The defining equation of `createQuadTree`, free of fuel. -/
theorem createQuadTree_unfold (map : List (List α)) (r : α) (a b c d : Nat) :
    createQuadTree map a b c d r =
      (scanMax map a b c d >>= fun max_height =>
        if max_height = 0 then pure HeightMapNodePtr.null
        else if c - a = 1 ∨ d - b = 1 then
          if c - a = 1 ∧ d - b = 1 then
            pure (HeightMapNodePtr.node (rangeBox a b c d r max_height) true
              .null .null .null .null)
          else Except.error Fault.assertion
        else
          createQuadTree map a b ((c + a) / 2) ((d + b) / 2) r >>= fun c0 =>
          createQuadTree map ((c + a) / 2) b c ((d + b) / 2) r >>= fun c1 =>
          createQuadTree map a ((d + b) / 2) ((c + a) / 2) d r >>= fun c2 =>
          createQuadTree map ((c + a) / 2) ((d + b) / 2) c d r >>= fun c3 =>
          pure (HeightMapNodePtr.node (rangeBox a b c d r max_height) false c0 c1 c2 c3)) := by
  conv_lhs => unfold createQuadTree
  rw [createQuadTreeAux]
  cases hs : scanMax map a b c d with
  | error e => rfl
  | ok m =>
    rw [ok_bind, ok_bind]
    by_cases h0 : m = 0
    · simp only [h0, if_true]
    · simp only [h0, if_false]
      by_cases h1 : c - a = 1 ∨ d - b = 1
      · simp only [h1, if_true]
        rfl
      · simp only [h1, if_false]
        have hne := scanMax_nonempty map a b c d m hs h0
        rw [createQuadTreeAux_eq map r (c - a) a b _ _ (by omega),
          createQuadTreeAux_eq map r (c - a) _ b c _ (by omega),
          createQuadTreeAux_eq map r (c - a) a _ _ d (by omega),
          createQuadTreeAux_eq map r (c - a) _ _ c d (by omega)]
        rfl

/-! ## `createQuadTree` on aligned squares -/

theorem powSizeLoop_spec (size : Nat) : ∀ (fuel i : Nat), 0 < fuel → size < fuel + 2 ^ i →
    (i = 0 ∨ 2 ^ (i - 1) < size) →
    ∃ j, powSizeLoop fuel size (2 ^ i) = Except.ok (2 ^ j) ∧ size ≤ 2 ^ j ∧
      (j = 0 ∨ 2 ^ (j - 1) < size) := by
  intro fuel
  induction fuel with
  | zero => intro i h; omega
  | succ f ih =>
    intro i _ hf hi
    have hpos : 0 < 2 ^ i := Nat.two_pow_pos i
    rw [powSizeLoop]
    split_ifs with h
    · have e : 2 ^ i * 2 = 2 ^ (i + 1) := (pow_succ 2 i).symm
      rw [e]
      refine ih (i + 1) (by omega) (by rw [← e]; omega) (Or.inr ?_)
      simpa using h
    · exact ⟨i, rfl, by omega, hi⟩

theorem powSize_spec (size : Nat) :
    ∃ j, powSize size = Except.ok (2 ^ j) ∧ size ≤ 2 ^ j ∧
      ∀ m, size ≤ 2 ^ m → 2 ^ j ≤ 2 ^ m := by
  obtain ⟨j, h1, h2, h3⟩ := powSizeLoop_spec size (size + 1) 0 (by omega) (by rw [pow_zero]; omega) (Or.inl rfl)
  refine ⟨j, h1, h2, fun m hm => ?_⟩
  rcases h3 with h3 | h3
  · subst h3
    exact Nat.one_le_two_pow
  · have hlt : 2 ^ (j - 1) < 2 ^ m := lt_of_lt_of_le h3 hm
    have h4 : j - 1 < m := (Nat.pow_lt_pow_iff_right (by norm_num)).mp hlt
    exact Nat.pow_le_pow_right (by norm_num) (by omega)

theorem gridDims_cons (row0 : List α) (rest : List (List α)) :
    ∃ j, gridDims (row0 :: rest) = Except.ok ((row0 :: rest).length, row0.length, 2 ^ j) ∧
      max (row0 :: rest).length row0.length ≤ 2 ^ j ∧
      ∀ m, max (row0 :: rest).length row0.length ≤ 2 ^ m → 2 ^ j ≤ 2 ^ m := by
  obtain ⟨j, h1, h2, h3⟩ := powSize_spec (max (row0 :: rest).length row0.length)
  refine ⟨j, ?_, h2, h3⟩
  unfold gridDims
  rw [getAt_ok (row0 :: rest) 0 (Nat.succ_pos _), ok_bind]
  show (powSize (max (row0 :: rest).length row0.length) >>= _) = _
  rw [h1]
  rfl

/-- What a call of `createQuadTree` that returns a node has done. -/
theorem createQuadTree_node_inv (map : List (List α)) (r : α) (a b c d : Nat)
    (box : Box α) (occ : Bool) (c0 c1 c2 c3 : HeightMapNodePtr α)
    (h : createQuadTree map a b c d r = Except.ok (.node box occ c0 c1 c2 c3)) :
    ∃ m, scanMax map a b c d = Except.ok m ∧ m ≠ 0 ∧ box = rangeBox a b c d r m ∧
      ((occ = true ∧ c - a = 1 ∧ d - b = 1 ∧
          c0 = .null ∧ c1 = .null ∧ c2 = .null ∧ c3 = .null) ∨
       (occ = false ∧ ¬ (c - a = 1 ∨ d - b = 1) ∧
          createQuadTree map a b ((c + a) / 2) ((d + b) / 2) r = Except.ok c0 ∧
          createQuadTree map ((c + a) / 2) b c ((d + b) / 2) r = Except.ok c1 ∧
          createQuadTree map a ((d + b) / 2) ((c + a) / 2) d r = Except.ok c2 ∧
          createQuadTree map ((c + a) / 2) ((d + b) / 2) c d r = Except.ok c3)) := by
  rw [createQuadTree_unfold] at h
  cases hs : scanMax map a b c d with
  | error e =>
    rw [hs] at h
    cases h
  | ok m =>
    rw [hs, ok_bind] at h
    refine ⟨m, rfl, ?_⟩
    by_cases h0 : m = 0
    · simp only [h0, if_true] at h
      cases h
    · simp only [h0, if_false] at h
      by_cases h1 : c - a = 1 ∨ d - b = 1
      · simp only [h1, if_true] at h
        by_cases h2 : c - a = 1 ∧ d - b = 1
        · simp only [h2, and_self, if_true] at h
          injection h with h
          injection h with e1 e2 e3 e4 e5 e6
          exact ⟨h0, e1.symm, Or.inl ⟨e2.symm, h2.1, h2.2, e3.symm, e4.symm, e5.symm,
            e6.symm⟩⟩
        · simp only [h2, if_false] at h
          cases h
      · simp only [h1, if_false] at h
        cases q0 : createQuadTree map a b ((c + a) / 2) ((d + b) / 2) r with
        | error e => rw [q0] at h; cases h
        | ok t0 =>
          rw [q0, ok_bind] at h
          cases q1 : createQuadTree map ((c + a) / 2) b c ((d + b) / 2) r with
          | error e => rw [q1] at h; cases h
          | ok t1 =>
            rw [q1, ok_bind] at h
            cases q2 : createQuadTree map a ((d + b) / 2) ((c + a) / 2) d r with
            | error e => rw [q2] at h; cases h
            | ok t2 =>
              rw [q2, ok_bind] at h
              cases q3 : createQuadTree map ((c + a) / 2) ((d + b) / 2) c d r with
              | error e => rw [q3] at h; cases h
              | ok t3 =>
                rw [q3, ok_bind] at h
                injection h with h
                injection h with e1 e2 e3 e4 e5 e6
                rw [← e3, ← e4, ← e5, ← e6]
                exact ⟨h0, e1.symm, Or.inr ⟨e2.symm, h1, rfl, rfl, rfl, rfl⟩⟩

/-- C6: when `createQuadTree` returns an internal node over `[a, c) x [b, d)`, its
slots 0..3 hold the values of `createQuadTree` on the four ranges of `quadrants`,
which are (min-x,min-y), (max-x,min-y), (min-x,max-y), (max-x,max-y) in that
order, split at `cx = (c + a) / 2` and `cy = (d + b) / 2`; every cell of a
quadrant is a cell of the parent range, and every cell of the parent range lies
in exactly one of the four quadrants. -/
theorem createQuadTree_quadrants_partition (map : List (List α)) (r : α)
    (a b c d : Nat) (box : Box α) (c0 c1 c2 c3 : HeightMapNodePtr α)
    (h : createQuadTree map a b c d r = Except.ok (.node box false c0 c1 c2 c3)) :
    quadrants ⟨a, b, c, d⟩ =
      [⟨a, b, (c + a) / 2, (d + b) / 2⟩, ⟨(c + a) / 2, b, c, (d + b) / 2⟩,
       ⟨a, (d + b) / 2, (c + a) / 2, d⟩, ⟨(c + a) / 2, (d + b) / 2, c, d⟩] ∧
    (quadrants ⟨a, b, c, d⟩).map
        (fun q => createQuadTree map q.mx_min q.my_min q.mx_max q.my_max r)
      = [Except.ok c0, Except.ok c1, Except.ok c2, Except.ok c3] ∧
    (∀ q ∈ quadrants ⟨a, b, c, d⟩, ∀ x y, q.contains x y = true →
      Range.contains ⟨a, b, c, d⟩ x y = true) ∧
    ∀ x y, Range.contains ⟨a, b, c, d⟩ x y = true →
      ((quadrants ⟨a, b, c, d⟩).filter (fun q => q.contains x y)).length = 1 := by
  obtain ⟨m, hs, hm, _, hcase⟩ := createQuadTree_node_inv map r a b c d box false c0 c1 c2 c3 h
  obtain ⟨hac, hbd⟩ := scanMax_nonempty map a b c d m hs hm
  rcases hcase with ⟨q1, _⟩ | ⟨_, q2, e0, e1, e2, e3⟩
  · cases q1
  · refine ⟨rfl, ?_, ?_, ?_⟩
    · simp only [quadrants, List.map_cons, List.map_nil, e0, e1, e2, e3]
    · intro q hq x y hxy
      simp only [quadrants, List.mem_cons, List.mem_singleton, List.not_mem_nil,
        or_false] at hq
      rw [Range.contains_iff] at hxy ⊢
      rcases hq with hq | hq | hq | hq <;> subst hq <;> simp only at hxy ⊢ <;> omega
    · intro x y hxy
      rw [Range.contains_iff] at hxy
      simp only at hxy
      have hT : ∀ g : Range, (g.mx_min ≤ x ∧ x < g.mx_max ∧ g.my_min ≤ y ∧ y < g.my_max) →
          g.contains x y = true := fun g hg => (Range.contains_iff g x y).mpr hg
      have hF : ∀ g : Range, ¬ (g.mx_min ≤ x ∧ x < g.mx_max ∧ g.my_min ≤ y ∧ y < g.my_max) →
          g.contains x y = false := fun g hg => by
        rw [← Bool.not_eq_true, Range.contains_iff]
        exact hg
      by_cases hx : x < (c + a) / 2 <;> by_cases hy : y < (d + b) / 2
      · have t1 := hT ⟨a, b, (c + a) / 2, (d + b) / 2⟩ (by simp only; omega)
        have t2 := hF ⟨(c + a) / 2, b, c, (d + b) / 2⟩ (by simp only; omega)
        have t3 := hF ⟨a, (d + b) / 2, (c + a) / 2, d⟩ (by simp only; omega)
        have t4 := hF ⟨(c + a) / 2, (d + b) / 2, c, d⟩ (by simp only; omega)
        simp [quadrants, List.filter_cons, t1, t2, t3, t4]
      · have t1 := hF ⟨a, b, (c + a) / 2, (d + b) / 2⟩ (by simp only; omega)
        have t2 := hF ⟨(c + a) / 2, b, c, (d + b) / 2⟩ (by simp only; omega)
        have t3 := hT ⟨a, (d + b) / 2, (c + a) / 2, d⟩ (by simp only; omega)
        have t4 := hF ⟨(c + a) / 2, (d + b) / 2, c, d⟩ (by simp only; omega)
        simp [quadrants, List.filter_cons, t1, t2, t3, t4]
      · have t1 := hF ⟨a, b, (c + a) / 2, (d + b) / 2⟩ (by simp only; omega)
        have t2 := hT ⟨(c + a) / 2, b, c, (d + b) / 2⟩ (by simp only; omega)
        have t3 := hF ⟨a, (d + b) / 2, (c + a) / 2, d⟩ (by simp only; omega)
        have t4 := hF ⟨(c + a) / 2, (d + b) / 2, c, d⟩ (by simp only; omega)
        simp [quadrants, List.filter_cons, t1, t2, t3, t4]
      · have t1 := hF ⟨a, b, (c + a) / 2, (d + b) / 2⟩ (by simp only; omega)
        have t2 := hF ⟨(c + a) / 2, b, c, (d + b) / 2⟩ (by simp only; omega)
        have t3 := hF ⟨a, (d + b) / 2, (c + a) / 2, d⟩ (by simp only; omega)
        have t4 := hT ⟨(c + a) / 2, (d + b) / 2, c, d⟩ (by simp only; omega)
        simp [quadrants, List.filter_cons, t1, t2, t3, t4]

/-- Evaluation on the root call over `[[0,0],[0,5]]` at resolution 1. -/
theorem createQuadTree_quadrants_partition_witness :
    createQuadTree ([[0, 0], [0, 5]] : List (List ℤ)) 0 0 2 2 1
      = Except.ok (.node ⟨⟨0, 0, 0⟩, ⟨2, 2, 5⟩⟩ false .null .null .null
          (.node ⟨⟨1, 1, 0⟩, ⟨2, 2, 5⟩⟩ true .null .null .null .null)) ∧
    quadrants ⟨0, 0, 2, 2⟩ = [⟨0, 0, 1, 1⟩, ⟨1, 0, 2, 1⟩, ⟨0, 1, 1, 2⟩, ⟨1, 1, 2, 2⟩] ∧
    (quadrants ⟨0, 0, 2, 2⟩).map
        (fun q => createQuadTree ([[0, 0], [0, 5]] : List (List ℤ))
          q.mx_min q.my_min q.mx_max q.my_max 1)
      = [Except.ok .null, Except.ok .null, Except.ok .null,
         Except.ok (.node ⟨⟨1, 1, 0⟩, ⟨2, 2, 5⟩⟩ true .null .null .null .null)] ∧
    (∀ q ∈ quadrants ⟨0, 0, 2, 2⟩, ∀ x y, q.contains x y = true →
      Range.contains ⟨0, 0, 2, 2⟩ x y = true) ∧
    ∀ x y, Range.contains ⟨0, 0, 2, 2⟩ x y = true →
      ((quadrants ⟨0, 0, 2, 2⟩).filter (fun q => q.contains x y)).length = 1 :=
  ⟨by decide,
    createQuadTree_quadrants_partition ([[0, 0], [0, 5]] : List (List ℤ)) 1 0 0 2 2
      ⟨⟨0, 0, 0⟩, ⟨2, 2, 5⟩⟩ .null .null .null
      (.node ⟨⟨1, 1, 0⟩, ⟨2, 2, 5⟩⟩ true .null .null .null .null) (by decide)⟩

/-- C7: every node returned by `createQuadTree` for the range `[a, c) x [b, d)` at
resolution `r` has the box with min corner `(a*r, b*r, 0)` and max corner
`(c*r, d*r, maxHeight)`, where `maxHeight` is the maximum sample over the range;
for a leaf the range is the single cell `(a, b)` and `maxHeight` is its sample. -/
theorem createQuadTree_box (map : List (List α)) (r : α) (a b c d : Nat)
    (box : Box α) (occ : Bool) (c0 c1 c2 c3 : HeightMapNodePtr α)
    (h : createQuadTree map a b c d r = Except.ok (.node box occ c0 c1 c2 c3)) :
    box.bmin = ⟨(a : α) * r, (b : α) * r, 0⟩ ∧
    box.bmax = ⟨(c : α) * r, (d : α) * r, box.bmax.z⟩ ∧
    IsMaxOver map ⟨a, b, c, d⟩ box.bmax.z ∧
    (occ = true → c = a + 1 ∧ d = b + 1 ∧ getAt2 map a b = Except.ok box.bmax.z) := by
  obtain ⟨m, hs, hm, hbox, hcase⟩ :=
    createQuadTree_node_inv map r a b c d box occ c0 c1 c2 c3 h
  obtain ⟨hac, hbd⟩ := scanMax_nonempty map a b c d m hs hm
  obtain ⟨hin, hmax⟩ := scanMax_ok map a b c d m hs
  have hz : box.bmax.z = m := by rw [hbox]; rfl
  rw [hz]
  refine ⟨by rw [hbox]; rfl, by rw [hbox]; rfl, ⟨?_, ?_⟩, ?_⟩
  · rcases rangeMax_attained map a b c d with h0 | ⟨mx, my, h1, h2, h3, h4, h5⟩
    · rw [← hmax] at h0
      exact absurd h0 hm
    · refine ⟨mx, my, (Range.contains_iff _ _ _).mpr ⟨h1, h2, h3, h4⟩, ?_⟩
      rw [getAt2_eq map mx my (hin mx my h1 h2 h3 h4), hmax, h5]
  · intro mx my hxy
    rw [Range.contains_iff] at hxy
    obtain ⟨h1, h2, h3, h4⟩ := hxy
    refine ⟨sample map mx my, getAt2_eq map mx my (hin mx my h1 h2 h3 h4), ?_⟩
    rw [hmax]
    exact rangeMax_ge map a b c d mx my h1 h2 h3 h4
  · intro ho
    rcases hcase with ⟨_, q2, q3, _⟩ | ⟨q1, _⟩
    · have hc : c = a + 1 := by omega
      have hd : d = b + 1 := by omega
      refine ⟨hc, hd, ?_⟩
      rw [getAt2_eq map a b (hin a b (le_refl _) hac (le_refl _) hbd)]
      rw [hc, hd, rangeMax_unit] at hmax
      rw [hmax]
      unfold stdMax
      split_ifs with hpos
      · rfl
      · rw [hmax] at hm
        unfold stdMax at hm
        rw [if_neg hpos] at hm
        exact absurd rfl hm
    · rw [q1] at ho
      cases ho

/-- Evaluation on the leaf call over cell `(1, 1)` of `[[0,0],[0,5]]`. -/
theorem createQuadTree_box_witness :
    createQuadTree ([[0, 0], [0, 5]] : List (List ℤ)) 1 1 2 2 1
      = Except.ok (.node ⟨⟨1, 1, 0⟩, ⟨2, 2, 5⟩⟩ true .null .null .null .null) ∧
    (⟨⟨1, 1, 0⟩, ⟨2, 2, 5⟩⟩ : Box ℤ).bmin = ⟨((1 : Nat) : ℤ) * 1, ((1 : Nat) : ℤ) * 1, 0⟩ ∧
    (⟨⟨1, 1, 0⟩, ⟨2, 2, 5⟩⟩ : Box ℤ).bmax
      = ⟨((2 : Nat) : ℤ) * 1, ((2 : Nat) : ℤ) * 1, (⟨⟨1, 1, 0⟩, ⟨2, 2, 5⟩⟩ : Box ℤ).bmax.z⟩ ∧
    IsMaxOver ([[0, 0], [0, 5]] : List (List ℤ)) ⟨1, 1, 2, 2⟩
      (⟨⟨1, 1, 0⟩, ⟨2, 2, 5⟩⟩ : Box ℤ).bmax.z ∧
    (true = true → 2 = 1 + 1 ∧ 2 = 1 + 1 ∧
      getAt2 ([[0, 0], [0, 5]] : List (List ℤ)) 1 1
        = Except.ok (⟨⟨1, 1, 0⟩, ⟨2, 2, 5⟩⟩ : Box ℤ).bmax.z) :=
  ⟨by decide,
    createQuadTree_box ([[0, 0], [0, 5]] : List (List ℤ)) 1 1 1 2 2
      ⟨⟨1, 1, 0⟩, ⟨2, 2, 5⟩⟩ true .null .null .null .null (by decide)⟩

theorem hasPositive_iff_rangeMax (map : List (List α)) (a b c d : Nat)
    (hb : ∀ mx my, a ≤ mx → mx < c → b ≤ my → my < d → InBounds map mx my) :
    HasPositive map ⟨a, b, c, d⟩ ↔ rangeMax map a b c d ≠ 0 := by
  rw [rangeMax_ne_zero_iff]
  constructor
  · rintro ⟨mx, my, h1, _, h3⟩
    rw [Range.contains_iff] at h1
    exact ⟨mx, my, h1.1, h1.2.1, h1.2.2.1, h1.2.2.2, h3⟩
  · rintro ⟨mx, my, h1, h2, h3, h4, h5⟩
    refine ⟨mx, my, ?_, hb mx my h1 h2 h3 h4, h5⟩
    rw [Range.contains_iff]
    exact ⟨h1, h2, h3, h4⟩

theorem rangeMax_empty (map : List (List α)) (a b c d : Nat) (h : c ≤ a ∨ d ≤ b) :
    rangeMax map a b c d = 0 := by
  by_contra hne
  obtain ⟨mx, my, h1, h2, h3, h4, _⟩ := (rangeMax_ne_zero_iff map a b c d).mp hne
  omega

theorem bind_ne_outOfBounds {β γ : Type} (x : Except Fault β) (g : β → Except Fault γ)
    (hx : x ≠ Except.error Fault.outOfBounds)
    (hg : ∀ v, g v ≠ Except.error Fault.outOfBounds) :
    (x >>= g) ≠ Except.error Fault.outOfBounds := by
  cases x with
  | error e =>
    intro hh
    have he : e = Fault.outOfBounds := Except.error.inj hh
    exact hx (by rw [he])
  | ok v => exact hg v

/-- On a range whose cells are in bounds no read of `createQuadTree` faults. -/
theorem createQuadTreeAux_ne_outOfBounds (map : List (List α)) (r : α) :
    ∀ (fuel a b c d : Nat),
      (∀ mx my, a ≤ mx → mx < c → b ≤ my → my < d → InBounds map mx my) →
      createQuadTreeAux fuel map a b c d r ≠ Except.error Fault.outOfBounds := by
  intro fuel
  induction fuel with
  | zero =>
    intro a b c d _ hh
    cases hh
  | succ f ih =>
    intro a b c d hb
    rw [createQuadTreeAux, scanMax_eq map a b c d hb, ok_bind]
    by_cases h0 : rangeMax map a b c d = 0
    · simp only [h0, if_true]
      intro hh
      cases hh
    · simp only [h0, if_false]
      by_cases h1 : c - a = 1 ∨ d - b = 1
      · simp only [h1, if_true]
        split_ifs <;> intro hh <;> cases hh
      · simp only [h1, if_false]
        have hne := scanMax_nonempty map a b c d _ (scanMax_eq map a b c d hb) h0
        refine bind_ne_outOfBounds _ _
          (ih _ _ _ _ (fun mx my q1 q2 q3 q4 => hb mx my (by omega) (by omega) (by omega)
            (by omega))) (fun c0 => ?_)
        refine bind_ne_outOfBounds _ _
          (ih _ _ _ _ (fun mx my q1 q2 q3 q4 => hb mx my (by omega) (by omega) (by omega)
            (by omega))) (fun c1 => ?_)
        refine bind_ne_outOfBounds _ _
          (ih _ _ _ _ (fun mx my q1 q2 q3 q4 => hb mx my (by omega) (by omega) (by omega)
            (by omega))) (fun c2 => ?_)
        refine bind_ne_outOfBounds _ _
          (ih _ _ _ _ (fun mx my q1 q2 q3 q4 => hb mx my (by omega) (by omega) (by omega)
            (by omega))) (fun c3 => ?_)
        intro hh
        cases hh

theorem createQuadTree_returns_or_asserts (map : List (List α)) (r : α) (a b c d : Nat)
    (hb : ∀ mx my, a ≤ mx → mx < c → b ≤ my → my < d → InBounds map mx my) :
    (∃ t, createQuadTree map a b c d r = Except.ok t) ∨
      createQuadTree map a b c d r = Except.error Fault.assertion := by
  have h1 := createQuadTreeAux_ne_fuel map r (c - a + 1) a b c d (by omega)
  have h2 := createQuadTreeAux_ne_outOfBounds map r (c - a + 1) a b c d hb
  unfold createQuadTree
  cases hres : createQuadTreeAux (c - a + 1) map a b c d r with
  | ok t => exact Or.inl ⟨t, rfl⟩
  | error e =>
    rw [hres] at h1 h2
    cases e with
    | assertion => exact Or.inr rfl
    | outOfBounds => exact absurd rfl h2
    | fuel => exact absurd rfl h1

theorem createQuadTree_null_inv (map : List (List α)) (r : α) (a b c d : Nat)
    (h : createQuadTree map a b c d r = Except.ok HeightMapNodePtr.null) :
    scanMax map a b c d = Except.ok 0 := by
  rw [createQuadTree_unfold] at h
  cases hs : scanMax map a b c d with
  | error e =>
    rw [hs] at h
    cases h
  | ok m =>
    rw [hs, ok_bind] at h
    by_cases h0 : m = 0
    · rw [h0]
    · simp only [h0, if_false] at h
      by_cases h1 : c - a = 1 ∨ d - b = 1
      · simp only [h1, if_true] at h
        split_ifs at h <;> cases h
      · simp only [h1, if_false] at h
        cases q0 : createQuadTree map a b ((c + a) / 2) ((d + b) / 2) r with
        | error e => rw [q0] at h; cases h
        | ok t0 =>
          rw [q0, ok_bind] at h
          cases q1 : createQuadTree map ((c + a) / 2) b c ((d + b) / 2) r with
          | error e => rw [q1] at h; cases h
          | ok t1 =>
            rw [q1, ok_bind] at h
            cases q2 : createQuadTree map a ((d + b) / 2) ((c + a) / 2) d r with
            | error e => rw [q2] at h; cases h
            | ok t2 =>
              rw [q2, ok_bind] at h
              cases q3 : createQuadTree map ((c + a) / 2) ((d + b) / 2) c d r with
              | error e => rw [q3] at h; cases h
              | ok t3 =>
                rw [q3, ok_bind] at h
                cases h

/-- The z-max of the value of a call is the scan maximum, when that is not 0. -/
theorem zTop_createQuadTree (map : List (List α)) (r : α) (a b c d : Nat)
    (t : HeightMapNodePtr α) (h : createQuadTree map a b c d r = Except.ok t) :
    (∀ mx my, a ≤ mx → mx < c → b ≤ my → my < d → InBounds map mx my) ∧
      zTop t = if rangeMax map a b c d = 0 then [] else [rangeMax map a b c d] := by
  cases t with
  | null =>
    have hs := createQuadTree_null_inv map r a b c d h
    obtain ⟨hin, hm⟩ := scanMax_ok map a b c d 0 hs
    refine ⟨hin, ?_⟩
    rw [← hm, if_pos rfl]
    rfl
  | node box occ c0 c1 c2 c3 =>
    obtain ⟨m, hs, hm, hbox, _⟩ := createQuadTree_node_inv map r a b c d box occ c0 c1 c2 c3 h
    obtain ⟨hin, hmax⟩ := scanMax_ok map a b c d m hs
    refine ⟨hin, ?_⟩
    rw [← hmax, if_neg hm, hbox]
    rfl

/-- Every node of the value of a call is itself the value of a call. -/
theorem nodes_built (map : List (List α)) (r : α) (t : HeightMapNodePtr α) :
    ∀ (a b c d : Nat), createQuadTree map a b c d r = Except.ok t →
      ∀ n ∈ nodes t, ∃ a2 b2 c2 d2, createQuadTree map a2 b2 c2 d2 r = Except.ok n := by
  induction t with
  | null =>
    intro a b c d _ n hn
    cases hn
  | node box occ c0 c1 c2 c3 ih0 ih1 ih2 ih3 =>
    intro a b c d h n hn
    simp only [nodes, List.mem_cons, List.mem_append] at hn
    rcases hn with hn | hn
    · exact ⟨a, b, c, d, by rw [hn]; exact h⟩
    · obtain ⟨m, _, _, _, hcase⟩ :=
        createQuadTree_node_inv map r a b c d box occ c0 c1 c2 c3 h
      rcases hcase with ⟨_, _, _, e0, e1, e2, e3⟩ | ⟨_, _, e0, e1, e2, e3⟩
      · rw [e0, e1, e2, e3] at hn
        simp [nodes] at hn
      · rcases hn with ((hn | hn) | hn) | hn
        · exact ih0 _ _ _ _ e0 n hn
        · exact ih1 _ _ _ _ e1 n hn
        · exact ih2 _ _ _ _ e2 n hn
        · exact ih3 _ _ _ _ e3 n hn

theorem rangeMax_mono (map : List (List α)) (a b c d a2 b2 c2 d2 : Nat)
    (h1 : a ≤ a2) (h2 : c2 ≤ c) (h3 : b ≤ b2) (h4 : d2 ≤ d) :
    rangeMax map a2 b2 c2 d2 ≤ rangeMax map a b c d := by
  rcases rangeMax_attained map a2 b2 c2 d2 with h0 | ⟨mx, my, q1, q2, q3, q4, q5⟩
  · rw [h0]
    exact rangeMax_nonneg map a b c d
  · rw [q5]
    exact rangeMax_ge map a b c d mx my (by omega) (by omega) (by omega) (by omega)

/-- C14: on a grid with zero rows `fromGrid` does not return a `HeightMap`: line 34
reads `grid[0]` of an empty vector, an out-of-bounds access, before anything else
is done. -/
theorem fromGrid_zero_rows_fault (r : α) :
    gridDims ([] : List (List α)) = Except.error Fault.outOfBounds ∧
    fromGrid ([] : List (List α)) r = Except.error Fault.outOfBounds :=
  ⟨rfl, rfl⟩

/-- With one row of zero columns nothing faults: the root is null and the mesh is
empty, which is what the remainder of `fromGrid` would give for zero rows too. -/
theorem fromGrid_zero_columns :
    fromGrid ([[]] : List (List ℤ)) 1 = Except.ok ⟨.null, []⟩ := by
  decide

/-- C15 fails as stated: over the all-zero map `[[0,0]]` the range
`[0, 1) x [0, 2)` has side 1 in x and side 2 in y, and `createQuadTree` returns
null: the scan finds the maximum 0 and returns before the assertion is reached. -/
theorem createQuadTree_thin_zero_counterexample :
    (1 - 0 = 1 ∧ 1 < 2 - 0) ∧
    createQuadTree ([[0, 0]] : List (List ℤ)) 0 0 1 2 1
      = Except.ok HeightMapNodePtr.null ∧
    createQuadTree ([[0, 0]] : List (List ℤ)) 0 0 1 2 1
      ≠ Except.error Fault.assertion := by
  decide

/-- C15, amended: for every map and every range whose cells are in bounds, with
side 1 on exactly one axis and a side greater than 1 on the other, `createQuadTree`
halts on the failed assertion if the range holds a sample `> 0` (its maximum is
not 0), and returns null, without reaching the assertion, if it holds none. -/
theorem createQuadTree_thin_range (map : List (List α)) (r : α) (a b c d : Nat)
    (hb : ∀ mx my, a ≤ mx → mx < c → b ≤ my → my < d → InBounds map mx my)
    (hthin : (c - a = 1 ∧ 1 < d - b) ∨ (1 < c - a ∧ d - b = 1)) :
    (HasPositive map ⟨a, b, c, d⟩ →
      createQuadTree map a b c d r = Except.error Fault.assertion) ∧
    (¬ HasPositive map ⟨a, b, c, d⟩ →
      createQuadTree map a b c d r = Except.ok HeightMapNodePtr.null) := by
  rw [hasPositive_iff_rangeMax map a b c d hb, createQuadTree_unfold,
    scanMax_eq map a b c d hb, ok_bind]
  have h1 : c - a = 1 ∨ d - b = 1 := by omega
  have h2 : ¬ (c - a = 1 ∧ d - b = 1) := by omega
  constructor
  · intro h0
    simp only [h0, h1, h2, if_true, if_false]
  · intro h0
    rw [not_not] at h0
    simp only [h0, if_true]
    rfl

/-- Evaluation on the map `[[1,2,3]]`: the range `[0, 1) x [0, 3)` asserts. -/
theorem createQuadTree_thin_range_witness :
    (∀ mx my, 0 ≤ mx → mx < 1 → 0 ≤ my → my < 3 →
      InBounds ([[1, 2, 3]] : List (List ℤ)) mx my) ∧
    ((1 - 0 = 1 ∧ 1 < 3 - 0) ∨ (1 < 1 - 0 ∧ 3 - 0 = 1)) ∧
    createQuadTree ([[1, 2, 3]] : List (List ℤ)) 0 0 1 3 1
      = Except.error Fault.assertion ∧
    (HasPositive ([[1, 2, 3]] : List (List ℤ)) ⟨0, 0, 1, 3⟩ →
      createQuadTree ([[1, 2, 3]] : List (List ℤ)) 0 0 1 3 1
        = Except.error Fault.assertion) ∧
    (¬ HasPositive ([[1, 2, 3]] : List (List ℤ)) ⟨0, 0, 1, 3⟩ →
      createQuadTree ([[1, 2, 3]] : List (List ℤ)) 0 0 1 3 1
        = Except.ok HeightMapNodePtr.null) :=
  ⟨fun mx my _ h2 _ h4 => by
      have e : mx = 0 := by omega
      subst e
      exact ⟨by decide, by simpa using h4⟩,
    by decide, by decide,
    createQuadTree_thin_range ([[1, 2, 3]] : List (List ℤ)) 1 0 0 1 3
      (fun mx my _ h2 _ h4 => by
        have e : mx = 0 := by omega
        subst e
        exact ⟨by decide, by simpa using h4⟩)
      (by decide)⟩

/-- The box of a non-null value of a call over a sub-range lies in the column over
the enclosing range, below the maximum of the enclosing range. -/
theorem child_box_within (map : List (List α)) (r : α) (hr : 0 ≤ r)
    (a b c d a2 b2 c2 d2 : Nat) (h1 : a ≤ a2) (h2 : c2 ≤ c) (h3 : b ≤ b2) (h4 : d2 ≤ d)
    (cb : Box α) (co : Bool) (k0 k1 k2 k3 : HeightMapNodePtr α)
    (hch : createQuadTree map a2 b2 c2 d2 r = Except.ok (.node cb co k0 k1 k2 k3)) :
    (a : α) * r ≤ cb.bmin.x ∧ cb.bmin.x ≤ cb.bmax.x ∧ cb.bmax.x ≤ (c : α) * r ∧
    (b : α) * r ≤ cb.bmin.y ∧ cb.bmin.y ≤ cb.bmax.y ∧ cb.bmax.y ≤ (d : α) * r ∧
    cb.bmin.z = 0 ∧ cb.bmax.z ≤ rangeMax map a b c d := by
  obtain ⟨m, hs, hm, hbox, _⟩ :=
    createQuadTree_node_inv map r a2 b2 c2 d2 cb co k0 k1 k2 k3 hch
  obtain ⟨hac, hbd⟩ := scanMax_nonempty map a2 b2 c2 d2 m hs hm
  obtain ⟨_, hmax⟩ := scanMax_ok map a2 b2 c2 d2 m hs
  have cast : ∀ x y : Nat, x ≤ y → (x : α) * r ≤ (y : α) * r :=
    fun x y hxy => mul_le_mul_of_nonneg_right (Nat.cast_le.mpr hxy) hr
  rw [hbox]
  refine ⟨cast _ _ h1, cast _ _ (by omega), cast _ _ h2, cast _ _ h3, cast _ _ (by omega),
    cast _ _ h4, rfl, ?_⟩
  show m ≤ _
  rw [hmax]
  exact rangeMax_mono map a b c d a2 b2 c2 d2 h1 h2 h3 h4

/-- C18: in a tree returned by `createQuadTree` at a resolution `r >= 0` (whatever
the sign of the heights), for every internal node the box of each non-null child
lies within the box of the node: its x and y extents are sub-intervals, both
z-min are 0, and its z-max is at most the z-max of the node; and the z-max of the
node is the greatest of the z-max of its non-null children. -/
theorem createQuadTree_child_boxes (map : List (List α)) (r : α) (a b c d : Nat)
    (t : HeightMapNodePtr α) (hr : 0 ≤ r)
    (h : createQuadTree map a b c d r = Except.ok t) :
    ∀ n ∈ nodes t, ∀ box c0 c1 c2 c3,
      n = HeightMapNodePtr.node box false c0 c1 c2 c3 →
      (∀ ch ∈ [c0, c1, c2, c3], ∀ cb co k0 k1 k2 k3,
        ch = HeightMapNodePtr.node cb co k0 k1 k2 k3 →
        box.bmin.x ≤ cb.bmin.x ∧ cb.bmin.x ≤ cb.bmax.x ∧ cb.bmax.x ≤ box.bmax.x ∧
        box.bmin.y ≤ cb.bmin.y ∧ cb.bmin.y ≤ cb.bmax.y ∧ cb.bmax.y ≤ box.bmax.y ∧
        cb.bmin.z = 0 ∧ box.bmin.z = 0 ∧ cb.bmax.z ≤ box.bmax.z) ∧
      box.bmax.z ∈ zTop c0 ++ zTop c1 ++ zTop c2 ++ zTop c3 ∧
      ∀ z ∈ zTop c0 ++ zTop c1 ++ zTop c2 ++ zTop c3, z ≤ box.bmax.z := by
  intro n hn box c0 c1 c2 c3 hnode
  obtain ⟨a2, b2, c2', d2, hcall⟩ := nodes_built map r t a b c d h n hn
  rw [hnode] at hcall
  obtain ⟨m, hs, hm, hbox, hcase⟩ :=
    createQuadTree_node_inv map r a2 b2 c2' d2 box false c0 c1 c2 c3 hcall
  obtain ⟨hac, hbd⟩ := scanMax_nonempty map a2 b2 c2' d2 m hs hm
  obtain ⟨_, hmax⟩ := scanMax_ok map a2 b2 c2' d2 m hs
  rcases hcase with ⟨q1, _⟩ | ⟨_, hleaf, e0, e1, e2, e3⟩
  · cases q1
  have hz : box.bmax.z = rangeMax map a2 b2 c2' d2 := by rw [hbox, ← hmax]; rfl
  have z0 := (zTop_createQuadTree map r _ _ _ _ c0 e0).2
  have z1 := (zTop_createQuadTree map r _ _ _ _ c1 e1).2
  have z2 := (zTop_createQuadTree map r _ _ _ _ c2 e2).2
  have z3 := (zTop_createQuadTree map r _ _ _ _ c3 e3).2
  have m0 := rangeMax_mono map a2 b2 c2' d2 a2 b2 ((c2' + a2) / 2) ((d2 + b2) / 2)
    (by omega) (by omega) (by omega) (by omega)
  have m1 := rangeMax_mono map a2 b2 c2' d2 ((c2' + a2) / 2) b2 c2' ((d2 + b2) / 2)
    (by omega) (by omega) (by omega) (by omega)
  have m2 := rangeMax_mono map a2 b2 c2' d2 a2 ((d2 + b2) / 2) ((c2' + a2) / 2) d2
    (by omega) (by omega) (by omega) (by omega)
  have m3 := rangeMax_mono map a2 b2 c2' d2 ((c2' + a2) / 2) ((d2 + b2) / 2) c2' d2
    (by omega) (by omega) (by omega) (by omega)
  refine ⟨?_, ?_, ?_⟩
  · intro ch hch cb co k0 k1 k2 k3 hcb
    have key : ∀ a3 b3 c3' d3, a2 ≤ a3 → c3' ≤ c2' → b2 ≤ b3 → d3 ≤ d2 →
        createQuadTree map a3 b3 c3' d3 r = Except.ok ch →
        box.bmin.x ≤ cb.bmin.x ∧ cb.bmin.x ≤ cb.bmax.x ∧ cb.bmax.x ≤ box.bmax.x ∧
        box.bmin.y ≤ cb.bmin.y ∧ cb.bmin.y ≤ cb.bmax.y ∧ cb.bmax.y ≤ box.bmax.y ∧
        cb.bmin.z = 0 ∧ box.bmin.z = 0 ∧ cb.bmax.z ≤ box.bmax.z := by
      intro a3 b3 c3' d3 q1 q2 q3 q4 hq
      rw [hcb] at hq
      obtain ⟨w1, w2, w3, w4, w5, w6, w7, w8⟩ := child_box_within map r hr a2 b2 c2' d2
        a3 b3 c3' d3 q1 q2 q3 q4 cb co k0 k1 k2 k3 hq
      rw [hz]
      rw [hbox]
      exact ⟨w1, w2, w3, w4, w5, w6, w7, rfl, w8⟩
    simp only [List.mem_cons, List.mem_singleton, List.not_mem_nil, or_false] at hch
    rcases hch with hch | hch | hch | hch <;> subst hch
    · exact key _ _ _ _ (by omega) (by omega) (by omega) (by omega) e0
    · exact key _ _ _ _ (by omega) (by omega) (by omega) (by omega) e1
    · exact key _ _ _ _ (by omega) (by omega) (by omega) (by omega) e2
    · exact key _ _ _ _ (by omega) (by omega) (by omega) (by omega) e3
  · rw [hz, z0, z1, z2, z3]
    have hne : rangeMax map a2 b2 c2' d2 ≠ 0 := by rw [← hmax]; exact hm
    rcases rangeMax_attained map a2 b2 c2' d2 with h0 | ⟨mx, my, q1, q2, q3, q4, q5⟩
    · exact absurd h0 hne
    · have key : ∀ a3 b3 c3' d3, a3 ≤ mx → mx < c3' → b3 ≤ my → my < d3 →
          rangeMax map a3 b3 c3' d3 ≤ rangeMax map a2 b2 c2' d2 →
          rangeMax map a3 b3 c3' d3 = rangeMax map a2 b2 c2' d2 := by
        intro a3 b3 c3' d3 w1 w2 w3 w4 w5
        refine le_antisymm w5 ?_
        rw [q5]
        exact rangeMax_ge map a3 b3 c3' d3 mx my w1 w2 w3 w4
      simp only [List.mem_append]
      by_cases hx : mx < (c2' + a2) / 2 <;> by_cases hy : my < (d2 + b2) / 2
      · have e := key _ _ _ _ q1 hx q3 hy m0
        rw [e, if_neg hne]
        simp
      · have e := key _ _ _ _ q1 hx (by omega) q4 m2
        rw [e, if_neg hne]
        simp
      · have e := key _ _ _ _ (by omega) q2 q3 hy m1
        rw [e, if_neg hne]
        simp
      · have e := key _ _ _ _ (by omega) q2 (by omega) q4 m3
        rw [e, if_neg hne]
        simp
  · intro z hzm
    rw [hz]
    rw [z0, z1, z2, z3] at hzm
    simp only [List.mem_append] at hzm
    rcases hzm with ((hzm | hzm) | hzm) | hzm
    · split_ifs at hzm
      · cases hzm
      · rw [List.mem_singleton.mp hzm]; exact m0
    · split_ifs at hzm
      · cases hzm
      · rw [List.mem_singleton.mp hzm]; exact m1
    · split_ifs at hzm
      · cases hzm
      · rw [List.mem_singleton.mp hzm]; exact m2
    · split_ifs at hzm
      · cases hzm
      · rw [List.mem_singleton.mp hzm]; exact m3

/-- Evaluation on the map `[[1,2],[3,4]]` at resolution 1: four leaves under the
root, whose z-max 4 is that of slot 3. -/
theorem createQuadTree_child_boxes_witness :
    (0 : ℤ) ≤ 1 ∧
    createQuadTree ([[1, 2], [3, 4]] : List (List ℤ)) 0 0 2 2 1
      = Except.ok (.node ⟨⟨0, 0, 0⟩, ⟨2, 2, 4⟩⟩ false
          (.node ⟨⟨0, 0, 0⟩, ⟨1, 1, 1⟩⟩ true .null .null .null .null)
          (.node ⟨⟨1, 0, 0⟩, ⟨2, 1, 3⟩⟩ true .null .null .null .null)
          (.node ⟨⟨0, 1, 0⟩, ⟨1, 2, 2⟩⟩ true .null .null .null .null)
          (.node ⟨⟨1, 1, 0⟩, ⟨2, 2, 4⟩⟩ true .null .null .null .null)) ∧
    ∀ n ∈ nodes (HeightMapNodePtr.node (⟨⟨0, 0, 0⟩, ⟨2, 2, 4⟩⟩ : Box ℤ) false
          (.node ⟨⟨0, 0, 0⟩, ⟨1, 1, 1⟩⟩ true .null .null .null .null)
          (.node ⟨⟨1, 0, 0⟩, ⟨2, 1, 3⟩⟩ true .null .null .null .null)
          (.node ⟨⟨0, 1, 0⟩, ⟨1, 2, 2⟩⟩ true .null .null .null .null)
          (.node ⟨⟨1, 1, 0⟩, ⟨2, 2, 4⟩⟩ true .null .null .null .null)),
      ∀ box c0 c1 c2 c3,
      n = HeightMapNodePtr.node box false c0 c1 c2 c3 →
      (∀ ch ∈ [c0, c1, c2, c3], ∀ cb co k0 k1 k2 k3,
        ch = HeightMapNodePtr.node cb co k0 k1 k2 k3 →
        box.bmin.x ≤ cb.bmin.x ∧ cb.bmin.x ≤ cb.bmax.x ∧ cb.bmax.x ≤ box.bmax.x ∧
        box.bmin.y ≤ cb.bmin.y ∧ cb.bmin.y ≤ cb.bmax.y ∧ cb.bmax.y ≤ box.bmax.y ∧
        cb.bmin.z = 0 ∧ box.bmin.z = 0 ∧ cb.bmax.z ≤ box.bmax.z) ∧
      box.bmax.z ∈ zTop c0 ++ zTop c1 ++ zTop c2 ++ zTop c3 ∧
      ∀ z ∈ zTop c0 ++ zTop c1 ++ zTop c2 ++ zTop c3, z ≤ box.bmax.z :=
  ⟨by decide, by decide,
    createQuadTree_child_boxes ([[1, 2], [3, 4]] : List (List ℤ)) 1 0 0 2 2 _
      (by decide) (by decide)⟩

/-- C19: on every map and every range whose cells are in bounds `createQuadTree`
terminates: it returns a value or halts on the assertion, and every fuel above
the width of the range gives that same result; each recursive call is made on a
range that is strictly narrower and strictly lower; an empty range returns null
and its call log is the call itself, without any recursive call. -/
theorem createQuadTree_terminates (map : List (List α)) (r : α) (a b c d : Nat)
    (hb : ∀ mx my, a ≤ mx → mx < c → b ≤ my → my < d → InBounds map mx my) :
    ((∃ t, createQuadTree map a b c d r = Except.ok t) ∨
      createQuadTree map a b c d r = Except.error Fault.assertion) ∧
    (∀ fuel, c - a < fuel →
      createQuadTreeAux fuel map a b c d r = createQuadTree map a b c d r) ∧
    (∀ m, scanMax map a b c d = Except.ok m → m ≠ 0 → ¬ (c - a = 1 ∨ d - b = 1) →
      ∀ q ∈ quadrants ⟨a, b, c, d⟩,
        q.mx_max - q.mx_min < c - a ∧ q.my_max - q.my_min < d - b) ∧
    ((c ≤ a ∨ d ≤ b) →
      createQuadTree map a b c d r = Except.ok HeightMapNodePtr.null ∧
      createQuadTreeCalls map a b c d r
        = [(⟨a, b, c, d⟩, Except.ok HeightMapNodePtr.null)]) := by
  refine ⟨createQuadTree_returns_or_asserts map r a b c d hb,
    fun fuel hf => createQuadTreeAux_eq map r fuel a b c d hf, ?_, ?_⟩
  · intro m hs hm hleaf q hq
    obtain ⟨hac, hbd⟩ := scanMax_nonempty map a b c d m hs hm
    simp only [quadrants, List.mem_cons, List.mem_singleton, List.not_mem_nil,
      or_false] at hq
    rcases hq with hq | hq | hq | hq <;> rw [hq] <;> simp only <;> omega
  · intro hempty
    have hs : scanMax map a b c d = Except.ok 0 := by
      rw [scanMax_eq map a b c d hb, rangeMax_empty map a b c d hempty]
    have hnull : createQuadTree map a b c d r = Except.ok HeightMapNodePtr.null := by
      rw [createQuadTree_unfold, hs, ok_bind, if_pos rfl]
      rfl
    refine ⟨hnull, ?_⟩
    unfold createQuadTreeCalls
    rw [callLog, hs, createQuadTreeAux_eq map r _ a b c d (by omega), hnull]
    simp

/-- Evaluation on the map `[[1,2],[3,4]]` over the whole grid. -/
theorem createQuadTree_terminates_witness :
    (∀ mx my, 0 ≤ mx → mx < 2 → 0 ≤ my → my < 2 →
      InBounds ([[1, 2], [3, 4]] : List (List ℤ)) mx my) ∧
    ((∃ t, createQuadTree ([[1, 2], [3, 4]] : List (List ℤ)) 0 0 2 2 1 = Except.ok t) ∨
      createQuadTree ([[1, 2], [3, 4]] : List (List ℤ)) 0 0 2 2 1
        = Except.error Fault.assertion) ∧
    (∀ fuel, 2 - 0 < fuel →
      createQuadTreeAux fuel ([[1, 2], [3, 4]] : List (List ℤ)) 0 0 2 2 1
        = createQuadTree ([[1, 2], [3, 4]] : List (List ℤ)) 0 0 2 2 1) ∧
    (∀ m, scanMax ([[1, 2], [3, 4]] : List (List ℤ)) 0 0 2 2 = Except.ok m → m ≠ 0 →
      ¬ (2 - 0 = 1 ∨ 2 - 0 = 1) →
      ∀ q ∈ quadrants ⟨0, 0, 2, 2⟩,
        q.mx_max - q.mx_min < 2 - 0 ∧ q.my_max - q.my_min < 2 - 0) ∧
    ((2 ≤ 0 ∨ 2 ≤ 0) →
      createQuadTree ([[1, 2], [3, 4]] : List (List ℤ)) 0 0 2 2 1
        = Except.ok HeightMapNodePtr.null ∧
      createQuadTreeCalls ([[1, 2], [3, 4]] : List (List ℤ)) 0 0 2 2 1
        = [(⟨0, 0, 2, 2⟩, Except.ok HeightMapNodePtr.null)]) :=
  have hb : ∀ mx my, 0 ≤ mx → mx < 2 → 0 ≤ my → my < 2 →
      InBounds ([[1, 2], [3, 4]] : List (List ℤ)) mx my := fun mx my _ h2 _ h4 => by
    have e : mx = 0 ∨ mx = 1 := by omega
    have e2 : my = 0 ∨ my = 1 := by omega
    rcases e with e | e <;> rcases e2 with e2 | e2 <;> subst e <;> subst e2 <;>
      exact ⟨by decide, by decide⟩
  ⟨hb, createQuadTree_terminates ([[1, 2], [3, 4]] : List (List ℤ)) 1 0 0 2 2 hb⟩

theorem powSizeLoop32_eq (size : Nat) (hs : size ≤ 2 ^ 31) : ∀ fuel pow_size,
    powSizeLoop32 fuel size pow_size = powSizeLoop fuel size pow_size := by
  intro fuel
  induction fuel with
  | zero => intro p; rfl
  | succ f ih =>
    intro p
    rw [powSizeLoop32, powSizeLoop]
    split_ifs with h
    · rw [Nat.mod_eq_of_lt (by omega), ih]
    · rfl

theorem powSizeLoop_log (size : Nat) : ∀ (fuel i : Nat), 0 < fuel →
    size ≤ 2 ^ (i + fuel - 1) → (i = 0 ∨ 2 ^ (i - 1) < size) →
    ∃ j, powSizeLoop fuel size (2 ^ i) = Except.ok (2 ^ j) ∧ size ≤ 2 ^ j ∧
      (j = 0 ∨ 2 ^ (j - 1) < size) := by
  intro fuel
  induction fuel with
  | zero => intro i h; omega
  | succ f ih =>
    intro i _ hf hi
    rw [powSizeLoop]
    split_ifs with h
    · have e : 2 ^ i * 2 = 2 ^ (i + 1) := (pow_succ 2 i).symm
      have hf0 : 0 < f := by
        rcases Nat.eq_zero_or_pos f with h0 | h0
        · subst h0
          simp at hf
          omega
        · exact h0
      rw [e]
      refine ih (i + 1) hf0 ?_ (Or.inr (by simpa using h))
      have e2 : i + 1 + f - 1 = i + (f + 1) - 1 := by omega
      rw [e2]
      exact hf
    · exact ⟨i, rfl, by omega, hi⟩

theorem powSizeLoop32_zero (size : Nat) (hs : 0 < size) : ∀ fuel,
    powSizeLoop32 fuel size 0 = Except.error Fault.fuel := by
  intro fuel
  induction fuel with
  | zero => rfl
  | succ f ih =>
    rw [powSizeLoop32, if_pos hs]
    exact ih

theorem powSizeLoop32_wrap (size : Nat) (hs : 2 ^ 31 < size) : ∀ (k i fuel : Nat),
    i + k = 31 → powSizeLoop32 fuel size (2 ^ i) = Except.error Fault.fuel := by
  intro k
  induction k with
  | zero =>
    intro i fuel hi
    have hi : i = 31 := by omega
    subst hi
    cases fuel with
    | zero => rfl
    | succ f =>
      rw [powSizeLoop32, if_pos hs]
      exact powSizeLoop32_zero _ (by omega) f
  | succ k ih =>
    intro i fuel hi
    cases fuel with
    | zero => rfl
    | succ f =>
      have h1 : 2 ^ i ≤ 2 ^ 30 := Nat.pow_le_pow_right (by norm_num) (by omega)
      have e : 2 ^ i * 2 = 2 ^ (i + 1) := (pow_succ 2 i).symm
      rw [powSizeLoop32, if_pos (by omega), Nat.mod_eq_of_lt (by omega), e]
      exact ih (i + 1) f (by omega)

theorem gridDims32_unfold (fuel : Nat) (grid : List (List α)) (row0 : List α)
    (h : getAt grid 0 = Except.ok row0) :
    gridDims32 fuel grid
      = (powSizeLoop32 fuel (max (grid.length % 2 ^ 32) (row0.length % 2 ^ 32)) 1 >>=
          fun pow_size => pure (grid.length % 2 ^ 32, row0.length % 2 ^ 32, pow_size)) := by
  unfold gridDims32
  rw [h, ok_bind]

theorem pow_two_minimal (size j : Nat) (h : j = 0 ∨ 2 ^ (j - 1) < size) (m : Nat)
    (hm : size ≤ 2 ^ m) : 2 ^ j ≤ 2 ^ m := by
  rcases h with h | h
  · subst h
    exact Nat.one_le_two_pow
  · have hlt : 2 ^ (j - 1) < 2 ^ m := lt_of_lt_of_le h hm
    have h4 : j - 1 < m := (Nat.pow_lt_pow_iff_right (by norm_num)).mp hlt
    exact Nat.pow_le_pow_right (by norm_num) (by omega)

/-- C2, with the bound that 32-bit arithmetic needs: for every grid with at least
one row, `M` rows and `N = grid[0].size()` columns such that `max(M, N) ≤ 2 ^ 31`,
the loop of `fromGrid` on `unsigned int` values ends after at most 32 tests of its
condition, and the `pow_size` it leaves is a power of two, is at least
`max(M, N)`, is at most every power of two that is at least `max(M, N)`, and is
the `pow_size` of the exact-arithmetic model `gridDims`. -/
theorem gridDims32_powSize_smallest (row0 : List α) (rest : List (List α))
    (hsize : max (row0 :: rest).length row0.length ≤ 2 ^ 31) :
    ∃ pow_size,
      (∀ fuel, 32 ≤ fuel → gridDims32 fuel (row0 :: rest)
        = Except.ok ((row0 :: rest).length, row0.length, pow_size)) ∧
      gridDims (row0 :: rest)
        = Except.ok ((row0 :: rest).length, row0.length, pow_size) ∧
      (∃ k, pow_size = 2 ^ k) ∧
      max (row0 :: rest).length row0.length ≤ pow_size ∧
      ∀ m, max (row0 :: rest).length row0.length ≤ 2 ^ m → pow_size ≤ 2 ^ m := by
  obtain ⟨j, h1, h2, h3⟩ := gridDims_cons row0 rest
  refine ⟨2 ^ j, ?_, h1, ⟨j, rfl⟩, h2, h3⟩
  intro fuel hf
  have hM : (row0 :: rest).length ≤ 2 ^ 31 := le_trans (le_max_left _ _) hsize
  have hN : row0.length ≤ 2 ^ 31 := le_trans (le_max_right _ _) hsize
  obtain ⟨i, e1, e2, e3⟩ := powSizeLoop_log (max (row0 :: rest).length row0.length) fuel 0
    (by omega) (le_trans hsize (Nat.pow_le_pow_right (by norm_num) (by omega))) (Or.inl rfl)
  have e4 : 2 ^ i = 2 ^ j := le_antisymm (pow_two_minimal _ i e3 j h2) (h3 i e2)
  rw [gridDims32_unfold fuel (row0 :: rest) row0 (getAt_ok (row0 :: rest) 0 (Nat.succ_pos _)),
    Nat.mod_eq_of_lt (show (row0 :: rest).length < 2 ^ 32 by omega),
    Nat.mod_eq_of_lt (show row0.length < 2 ^ 32 by omega),
    powSizeLoop32_eq _ hsize]
  rw [pow_zero] at e1
  rw [e1, e4]
  rfl

theorem gridDims32_powSize_smallest_witness :
    max ([[1, 2, 3]] : List (List ℤ)).length ([1, 2, 3] : List ℤ).length ≤ 2 ^ 31 ∧
    ∃ pow_size,
      (∀ fuel, 32 ≤ fuel → gridDims32 fuel ([[1, 2, 3]] : List (List ℤ))
        = Except.ok (1, 3, pow_size)) ∧
      gridDims ([[1, 2, 3]] : List (List ℤ)) = Except.ok (1, 3, pow_size) ∧
      (∃ k, pow_size = 2 ^ k) ∧
      max ([[1, 2, 3]] : List (List ℤ)).length ([1, 2, 3] : List ℤ).length ≤ pow_size ∧
      ∀ m, max ([[1, 2, 3]] : List (List ℤ)).length ([1, 2, 3] : List ℤ).length ≤ 2 ^ m →
        pow_size ≤ 2 ^ m :=
  ⟨by decide, gridDims32_powSize_smallest ([1, 2, 3] : List ℤ) [] (by decide)⟩

/-- C2 as stated fails in 32-bit arithmetic: on the grid of `2 ^ 31 + 1` empty
rows (`M = 2 ^ 31 + 1`, `N = 0`, both representable as `unsigned int`) the
doubling `pow_size *= 2` wraps from `2 ^ 31` to `0`, `0 < size` holds for ever,
and the loop leaves no `pow_size` whatever the number of iterations allowed. -/
theorem gridDims32_wrap_counterexample :
    (List.replicate (2 ^ 31 + 1) ([] : List ℤ)).length = 2 ^ 31 + 1 ∧
    2 ^ 31 + 1 < 2 ^ 32 ∧
    2 ^ 31 * 2 % 2 ^ 32 = 0 ∧
    ∀ fuel, gridDims32 fuel (List.replicate (2 ^ 31 + 1) ([] : List ℤ))
      = Except.error Fault.fuel := by
  refine ⟨List.length_replicate _ _, by norm_num, by norm_num, fun fuel => ?_⟩
  have h0 : getAt (List.replicate (2 ^ 31 + 1) ([] : List ℤ)) 0 = Except.ok [] := by
    rw [getAt_ok _ 0 (by rw [List.length_replicate]; exact Nat.succ_pos _)]
    exact congrArg Except.ok (List.getElem_replicate _ _)
  have h1 : max ((2 ^ 31 + 1) % 2 ^ 32) (0 % 2 ^ 32) = 2 ^ 31 + 1 := by norm_num
  rw [gridDims32_unfold fuel _ [] h0, List.length_replicate, List.length_nil, h1]
  have h2 := powSizeLoop32_wrap (2 ^ 31 + 1) (by norm_num) 31 0 fuel (by norm_num)
  rw [pow_zero] at h2
  rw [h2]
  rfl
end Proofs

section Copying

variable {α : Type}

/-! ## `HeightMap::clone` -/

theorem copyNode_eq (t : HeightMapNodePtr α) : t.copyNode = t := by
  induction t with
  | null => rfl
  | node box occ c0 c1 c2 c3 ih0 ih1 ih2 ih3 =>
    rw [HeightMapNodePtr.copyNode, ih0, ih1, ih2, ih3]

/-- C13: for every `HeightMap`, `clone()` (through the copy constructor) yields a
`HeightMap` whose node tree equals the source tree, in shape, boxes and
`occupied_` flags, and whose mesh is the same triangle sequence; a `HeightMap`
with a null root clones to one with a null root. -/
theorem clone_identical (hmap : HeightMap α) :
    hmap.clone.root_ = hmap.root_ ∧ hmap.clone.mesh_ = hmap.mesh_ ∧
    (hmap.root_ = HeightMapNodePtr.null → hmap.clone.root_ = HeightMapNodePtr.null) := by
  have hroot : hmap.clone.root_ = hmap.root_ := by
    unfold HeightMap.clone HeightMap.copy
    cases hr : hmap.root_ with
    | null => rfl
    | node b o c0 c1 c2 c3 => exact copyNode_eq _
  exact ⟨hroot, rfl, fun h0 => by rw [hroot, h0]⟩

end Copying

end geo
